import Mathlib

/-!
# Verification of the fsh shell core against its specification

This file gives a shallow embedding, in Lean 4, of the core components of
the `fsh` shell (repository `flucium/fsh`) and settles a list of claims made
by its natural-language specification.

Embedded components (each definition is translated from the named Rust
source file):

* `src/src/error.rs`          — error kinds and errors
* `src/src/pipe.rs`           — the pipe coordinator state machine
* `src/src/sh_vars.rs`        — the shell-variable store
* `src/src/preprocessor.rs`   — the input preprocessor
* `src/src/token.rs`          — the token model and `Token::to_string`
* `src/src/lexer.rs`          — the lexer
* `src/src/parser/lite_parser.rs` — the token-group parser
* `src/src/process_handler.rs`    — the process registry
* `src/src/execute.rs` and `src/src/builtin/common.rs` — the executor,
  with the operating system (filesystem, process spawning, child exits)
  abstracted into an explicit environment record.

Machine integers are modelled as `Int` with explicit range checks where the
Rust code can overflow (`isize`/`i32` parsing).  Rust character predicates
`char::is_whitespace` is modelled exactly (the White_Space set is finite);
`char::is_numeric` and `char::is_alphabetic` are modelled by their ASCII
fragments (`Char.isDigit`, `Char.isAlpha`), which agree with Rust on all
ASCII input.
-/

/-- Decidable equality for `Except`, so that concrete runs of the embedded
fallible functions can be checked by `decide`. -/
instance {ε α : Type} [DecidableEq ε] [DecidableEq α] : DecidableEq (Except ε α) := fun a b =>
  match a, b with
  | Except.error e, Except.error f =>
    if h : e = f then Decidable.isTrue (by rw [h])
    else Decidable.isFalse (by intro hh; cases hh; exact h rfl)
  | Except.ok x, Except.ok y =>
    if h : x = y then Decidable.isTrue (by rw [h])
    else Decidable.isFalse (by intro hh; cases hh; exact h rfl)
  | Except.error _, Except.ok _ => Decidable.isFalse (by intro hh; cases hh)
  | Except.ok _, Except.error _ => Decidable.isFalse (by intro hh; cases hh)

namespace Fsh

/-! ## Errors (`src/src/error.rs`) -/

/-- `ErrorKind` from `src/src/error.rs`. -/
inductive ErrorKind where
  | notImplemented
  | internal
  | other
  | interrupted
  | permissionDenied
  | invalidInput
  | invalidSyntax
  | invalidPath
  | invalidFileDescriptor
  | executionFailed
  | notFound
  | notAFile
  | notADirectory
  deriving DecidableEq, Repr

/-- `Error` from `src/src/error.rs`: a kind together with a message. -/
structure Error where
  kind : ErrorKind
  message : String
  deriving DecidableEq, Repr

/-- `Error::NOT_IMPLEMENTED` from `src/src/error.rs`. -/
def Error.NOT_IMPLEMENTED : Error := ⟨ErrorKind.notImplemented, ""⟩

/-! ## The pipe coordinator (`src/src/pipe.rs`)

A `RawFd` is an `i32`; we model it as `Int` (the sign checks `fd >= 0` and
`fd < 0` in the source are significant).  Each mutating method is modelled
as a function returning the method's result paired with the pipe after the
call. -/

/-- `PipeState` from `src/src/pipe.rs`. -/
inductive PipeState where
  | closed
  | sendable
  | recvable
  deriving DecidableEq, Repr

/-- `Pipe` from `src/src/pipe.rs`: a state and an optional raw fd. -/
structure Pipe where
  state : PipeState
  fd : Option Int
  deriving DecidableEq, Repr

/-- `Pipe::new`: a closed pipe with no file descriptor. -/
def Pipe.new : Pipe := ⟨PipeState.closed, none⟩

/-- `Pipe::open`: a sendable pipe with no file descriptor. -/
def Pipe.mkOpen : Pipe := ⟨PipeState.sendable, none⟩

/-- `Pipe::send`: store `fd` when the pipe is `Sendable` and holds no fd;
any other configuration fails with `Error::NOT_IMPLEMENTED` and leaves the
pipe unchanged. -/
def Pipe.send (p : Pipe) (fd : Int) : Except Error Unit × Pipe :=
  if p.fd.isSome then
    (Except.error Error.NOT_IMPLEMENTED, p)
  else
    match p.state with
    | PipeState.sendable => (Except.ok (), ⟨PipeState.recvable, some fd⟩)
    | PipeState.closed => (Except.error Error.NOT_IMPLEMENTED, p)
    | PipeState.recvable => (Except.error Error.NOT_IMPLEMENTED, p)

/-- `Pipe::recv`: hand out the stored fd when the pipe is `Recvable`; the
source additionally rejects a stored fd that is negative
(`fd.unwrap_or(-1)` followed by the `fd < 0` check). -/
def Pipe.recv (p : Pipe) : Except Error Int × Pipe :=
  if p.fd.isNone then
    (Except.error Error.NOT_IMPLEMENTED, p)
  else
    match p.state with
    | PipeState.recvable =>
      let fd := p.fd.getD (-1)
      if fd < 0 then
        (Except.error Error.NOT_IMPLEMENTED, p)
      else
        (Except.ok fd, ⟨PipeState.sendable, none⟩)
    | PipeState.closed => (Except.error Error.NOT_IMPLEMENTED, p)
    | PipeState.sendable => (Except.error Error.NOT_IMPLEMENTED, p)

/-- `Pipe::close`: release the fd and become `Closed`; a stored negative fd
makes the method return early with an error, leaving the pipe unchanged
(the `Err(...)?` inside the `if let` in the source). -/
def Pipe.close (p : Pipe) : Except Error Unit × Pipe :=
  match p.fd with
  | some fd =>
    if fd ≥ 0 then
      (Except.ok (), ⟨PipeState.closed, none⟩)
    else
      (Except.error Error.NOT_IMPLEMENTED, p)
  | none => (Except.ok (), ⟨PipeState.closed, none⟩)

/-- `Pipe::quit`: unconditionally close the fd and reset to `Closed`. -/
def Pipe.quit (_p : Pipe) : Pipe := ⟨PipeState.closed, none⟩

/-- `Pipe::cancel`: close the fd and reset the (consumed) pipe to
`Sendable` with no fd. -/
def Pipe.cancel (_p : Pipe) : Pipe := ⟨PipeState.sendable, none⟩

/-- The representation invariant claimed for `Pipe`: a file descriptor is
stored exactly in the `Recvable` state. -/
def Pipe.inv (p : Pipe) : Prop := p.fd.isSome ↔ p.state = PipeState.recvable

instance (p : Pipe) : Decidable p.inv := by
  unfold Pipe.inv
  infer_instance

/-! ## The variable store (`src/src/sh_vars.rs`)

`ShVars` wraps a `HashMap<String, String>`; we model the map extensionally
as a function from keys to optional values.  A mutating method returns its
result paired with the store after the call (an error leaves the store
unchanged, as the early `return` in the source does). -/

/-- The contents of `ShVars` from `src/src/sh_vars.rs`, as a map. -/
def ShVars := String → Option String

/-- `ShVars::new`: the empty store. -/
def ShVars.new : ShVars := fun _ => none

/-- `ShVars::insert`: an empty key is rejected with `Error::NOT_IMPLEMENTED`
(store untouched); an empty value is replaced with the literal `"null"`;
an existing key is overwritten. -/
def ShVars.insert (m : ShVars) (key value : String) :
    Except Error Unit × ShVars :=
  if key = "" then
    (Except.error Error.NOT_IMPLEMENTED, m)
  else
    let value' := if value = "" then "null" else value
    (Except.ok (), fun k => if k = key then some value' else m k)

/-- `ShVars::get`. -/
def ShVars.get (m : ShVars) (key : String) : Option String := m key

/-- `ShVars::remove`. -/
def ShVars.remove (m : ShVars) (key : String) : ShVars :=
  fun k => if k = key then none else m k

/-! ## Rust character predicates

`char::is_whitespace` tests the Unicode `White_Space` property, a fixed
finite set of 25 code points, modelled exactly.  `char::is_numeric` and
`char::is_alphabetic` are modelled by their ASCII fragments. -/

/-- `char::is_whitespace`: the Unicode `White_Space` code points. -/
def rustIsWhitespace (c : Char) : Bool :=
  c = '\u0009' || c = '\u000A' || c = '\u000B' || c = '\u000C' ||
  c = '\u000D' || c = '\u0020' || c = '\u0085' || c = '\u00A0' ||
  c = '\u1680' || c = '\u2000' || c = '\u2001' || c = '\u2002' ||
  c = '\u2003' || c = '\u2004' || c = '\u2005' || c = '\u2006' ||
  c = '\u2007' || c = '\u2008' || c = '\u2009' || c = '\u200A' ||
  c = '\u2028' || c = '\u2029' || c = '\u202F' || c = '\u205F' ||
  c = '\u3000'

/-- The ASCII fragment of `char::is_numeric` (`'0'..='9'`).  Rust's
predicate additionally accepts the non-ASCII Unicode `Nd`/`Nl`/`No` code
points (e.g. `'٣'`, U+0663), which this model does not enumerate; on ASCII
characters the two agree exactly.  A theorem whose truth depends on the
distinction therefore carries an ASCII-source hypothesis
(`isAsciiSource`). -/
def rustIsNumeric (c : Char) : Bool := c.isDigit

/-- The ASCII fragment of `char::is_alphabetic`
(`'a'..='z' | 'A'..='Z'`); Rust additionally accepts non-ASCII Unicode
`Alphabetic` code points.  On ASCII characters the two agree exactly. -/
def rustIsAlphabetic (c : Char) : Bool := c.isAlpha

/-- A character list is pure ASCII.  On such sources `rustIsNumeric` and
`rustIsAlphabetic` coincide with Rust's `char::is_numeric` and
`char::is_alphabetic`, so the embedded lexer computes exactly what the
source lexer computes. -/
def isAsciiSource (l : List Char) : Prop := ∀ ch ∈ l, ch.toNat < 128

instance (l : List Char) : Decidable (isAsciiSource l) := by
  unfold isAsciiSource
  infer_instance

/-! ## The preprocessor (`src/src/preprocessor.rs`)

Strings are modelled as `List Char` (Rust iterates `chars()`).  The
`Cow`-返 optimisation `if result.len() == source.len() { Borrowed } else
{ Owned }` returns the same character content either way and is dropped. -/

/-- The quote-flag update of `remove_comments`: every `'` or `"` toggles
the single shared quote boolean, even inside a comment. -/
def rcQuote (isQuote : Bool) (c : Char) : Bool :=
  if c = '\'' || c = '"' then !isQuote else isQuote

/-- The comment-flag update of `remove_comments`: a `'#'` outside quotes
starts a comment. -/
def rcStart (isComment isQuote' : Bool) (c : Char) : Bool :=
  if c = '#' && !isQuote' then true else isComment

/-- The comment-flag reset of `remove_comments`: `\r`, `\n` and `;` end a
comment, after the push decision. -/
def rcReset (isComment' : Bool) (c : Char) : Bool :=
  if c = '\r' || c = '\n' || c = ';' then false else isComment'

/-- The fold of `remove_comments`: the loop body of the
`source.chars().for_each` closure. -/
def removeCommentsAux : Bool → Bool → List Char → List Char
  | _, _, [] => []
  | isComment, isQuote, c :: rest =>
    let isQuote' := rcQuote isQuote c
    let isComment' := rcStart isComment isQuote' c
    (if isComment' then ([] : List Char) else [c]) ++
      removeCommentsAux (rcReset isComment' c) isQuote' rest

/-- `remove_comments` from `src/src/preprocessor.rs`. -/
def remove_comments (source : List Char) : List Char :=
  removeCommentsAux false false source

/-- One trailing `'\r'` is stripped from a line that was terminated by
`'\n'` (the `Lines` iterator of `str::lines`). -/
def stripTrailingCR (l : List Char) : List Char :=
  if l.getLast? = some '\r' then l.dropLast else l

/-- Worker for `str::lines`: accumulate the current line (reversed). -/
def rustLinesAux : List Char → List Char → List (List Char)
  | [], acc => if acc.isEmpty then [] else [acc.reverse]
  | c :: rest, acc =>
    if c = '\n' then stripTrailingCR acc.reverse :: rustLinesAux rest []
    else rustLinesAux rest (c :: acc)

/-- `str::lines`: split at `'\n'`, strip one `'\r'` before each split point,
no trailing empty line; a final line without `'\n'` keeps a trailing
`'\r'`. -/
def rustLines (s : List Char) : List (List Char) := rustLinesAux s []

/-- `str::trim`: remove leading and trailing `White_Space` characters. -/
def rustTrim (l : List Char) : List Char :=
  ((l.dropWhile rustIsWhitespace).reverse.dropWhile rustIsWhitespace).reverse

/-- Join lines with a single `'\n'` between them (the `is_first_line`
bookkeeping of `remove_empty_line`). -/
def joinNL : List (List Char) → List Char
  | [] => []
  | [x] => x
  | x :: xs => x ++ '\n' :: joinNL xs

/-- `remove_empty_line` from `src/src/preprocessor.rs`: drop every line
whose trim is empty, rejoin the survivors with `'\n'`. -/
def remove_empty_line (source : List Char) : List Char :=
  joinNL ((rustLines source).filter fun line => !(rustTrim line).isEmpty)

/-- `str::replace("\r\n", ";")`: leftmost non-overlapping replacement. -/
def replaceCRLF : List Char → List Char
  | [] => []
  | [c] => [c]
  | c1 :: c2 :: rest =>
    if c1 = '\r' && c2 = '\n' then ';' :: replaceCRLF rest
    else c1 :: replaceCRLF (c2 :: rest)

/-- `str::replace("\n", ";")`. -/
def replaceLF : List Char → List Char
  | [] => []
  | c :: rest => (if c = '\n' then ';' else c) :: replaceLF rest

/-- `replace_line_with_semicolon` from `src/src/preprocessor.rs`. -/
def replace_line_with_semicolon (source : List Char) : List Char :=
  replaceLF (replaceCRLF source)

/-- The main loop of `preprocess`: push each character, and after pushing a
`';'` skip the directly following run of `';'`.  The peek-and-skip loop of
the source is expressed equivalently as a fold carrying a flag that records
whether the scanner is inside a run of `';'` whose first element has been
pushed. -/
def collapseSemicolonsAux : Bool → List Char → List Char
  | _, [] => []
  | prevSemi, c :: rest =>
    if c = ';' then
      if prevSemi then collapseSemicolonsAux true rest
      else ';' :: collapseSemicolonsAux true rest
    else c :: collapseSemicolonsAux false rest

/-- The `';'`-collapsing loop of `preprocess`. -/
def collapseSemicolons (l : List Char) : List Char :=
  collapseSemicolonsAux false l

/-- `preprocess` from `src/src/preprocessor.rs`: strip comments, drop empty
lines, turn line breaks into `';'`, collapse runs of `';'`. -/
def preprocess (source : List Char) : List Char :=
  collapseSemicolons
    (replace_line_with_semicolon (remove_empty_line (remove_comments source)))

/-! ## Tokens (`src/src/token.rs`) -/

/-- `Token` from `src/src/token.rs`.  `Number` carries an `isize`,
`FileDescriptor` an `i32`; both are modelled as `Int` (the parse functions
enforce the ranges).  Text payloads are kept as `List Char`. -/
inductive Token where
  | eof
  | semicolon
  | ampersand
  | pipe
  | equal
  | lessThan
  | greaterThan
  | null
  | string (s : List Char)
  | identifier (s : List Char)
  | boolean (b : Bool)
  | number (n : Int)
  | fileDescriptor (n : Int)
  deriving DecidableEq, Repr

/-- Decimal rendering of an `Int`, as Rust's `Display` produces it. -/
def intToChars (i : Int) : List Char :=
  if i < 0 then '-' :: Nat.toDigits 10 i.natAbs else Nat.toDigits 10 i.toNat

/-- `Token::to_string` from `src/src/token.rs`.  Note the source renders
`Pipe` as `"="` (not `"|"`), renders `EOF` as the literal text `"EOF"`, and
drops the `$` / `@` sigils and any quotes from `Identifier`, `FileDescriptor`
and `String` payloads. -/
def tokenToString : Token → List Char
  | Token.eof => "EOF".toList
  | Token.semicolon => ";".toList
  | Token.ampersand => "&".toList
  | Token.pipe => "=".toList
  | Token.equal => "=".toList
  | Token.lessThan => "<".toList
  | Token.greaterThan => ">".toList
  | Token.null => "null".toList
  | Token.string s => s
  | Token.identifier s => s
  | Token.boolean b => if b then "true".toList else "false".toList
  | Token.number n => intToChars n
  | Token.fileDescriptor fd => intToChars fd

/-! ## Integer parsing (`str::parse::<isize>` / `::<i32>`)

Rust's `FromStr` for a signed integer accepts an optional leading `+`/`-`
followed by one or more ASCII digits, and fails on overflow.  `isize` on the
target is 64-bit. -/

/-- The value of a non-empty all-digit string, if it is one. -/
def digitsVal? (ds : List Char) : Option Nat :=
  if ds.isEmpty || !ds.all Char.isDigit then none
  else some (ds.foldl (fun a c => a * 10 + (c.toNat - '0'.toNat)) 0)

/-- `str::parse::<isize>` (64-bit signed). -/
def parseIsize (l : List Char) : Option Int :=
  match l with
  | '+' :: ds => (digitsVal? ds).bind fun v =>
      if v ≤ 2 ^ 63 - 1 then some (v : Int) else none
  | '-' :: ds => (digitsVal? ds).bind fun v =>
      if v ≤ 2 ^ 63 then some (-(v : Int)) else none
  | ds => (digitsVal? ds).bind fun v =>
      if v ≤ 2 ^ 63 - 1 then some (v : Int) else none

/-- `str::parse::<i32>` (32-bit signed). -/
def parseI32 (l : List Char) : Option Int :=
  match l with
  | '+' :: ds => (digitsVal? ds).bind fun v =>
      if v ≤ 2 ^ 31 - 1 then some (v : Int) else none
  | '-' :: ds => (digitsVal? ds).bind fun v =>
      if v ≤ 2 ^ 31 then some (-(v : Int)) else none
  | ds => (digitsVal? ds).bind fun v =>
      if v ≤ 2 ^ 31 - 1 then some (v : Int) else none

/-! ## The lexer (`src/src/lexer.rs`) -/

/-- `RESERVED_CHARS` from `src/src/lexer.rs`. -/
def RESERVED_CHARS : List Char := [';', '&', '$', '@', '=', '|', '<', '>', '\'', '"']

/-- `Lexer` from `src/src/lexer.rs`: the source as characters plus a
cursor. -/
structure Lexer where
  source : List Char
  index : Nat
  deriving DecidableEq, Repr

/-- `Lexer::new`. -/
def Lexer.new (source : List Char) : Lexer := ⟨source, 0⟩

/-- `Lexer::current`. -/
def Lexer.current (lx : Lexer) : Option Char := lx.source.get? lx.index

/-- `Lexer::advance`. -/
def Lexer.advance (lx : Lexer) : Lexer := ⟨lx.source, lx.index + 1⟩

/-- `Lexer::read_while`: consume the maximal run satisfying `p` from the
cursor and return it.  The Rust loop advances while the condition holds and
collects `source[start..index]`. -/
def Lexer.read_while (lx : Lexer) (p : Char → Bool) : List Char × Lexer :=
  let taken := (lx.source.drop lx.index).takeWhile p
  (taken, ⟨lx.source, lx.index + taken.length⟩)

/-- A lexer-level failure result.  The Rust methods rewind `self.index` to
`start_index` before returning `Err`, so a failed alternative leaves the
lexer exactly as it was; in this functional model the caller simply reuses
the original lexer value. -/
def lexErr (msg : String) : Error := ⟨ErrorKind.invalidSyntax, msg⟩

/-- `Lexer::read_keyword_token`: an alphabetic run that is exactly `null`,
`true` or `false`. -/
def Lexer.read_keyword_token (lx : Lexer) : Except Error (Token × Lexer) :=
  let (s, lx') := lx.read_while rustIsAlphabetic
  if s = "null".toList then Except.ok (Token.null, lx')
  else if s = "true".toList then Except.ok (Token.boolean true, lx')
  else if s = "false".toList then Except.ok (Token.boolean false, lx')
  else Except.error (lexErr "unexpected keyword")

/-- `Lexer::read_string_token`: a non-empty run of non-whitespace,
non-reserved characters that does not parse as an `isize` and is not a
reserved keyword. -/
def Lexer.read_string_token (lx : Lexer) : Except Error (Token × Lexer) :=
  let (s, lx') := lx.read_while fun c => !rustIsWhitespace c && !RESERVED_CHARS.contains c
  if s.isEmpty || (parseIsize s).isSome || s = "null".toList ||
      s = "true".toList || s = "false".toList then
    Except.error (lexErr "invalid string token")
  else
    Except.ok (Token.string s, lx')

/-- `Lexer::read_quoted_string_token`: a body delimited by a matching pair
of `'` or `"`; the quotes are not part of the value. -/
def Lexer.read_quoted_string_token (lx : Lexer) : Except Error (Token × Lexer) :=
  match lx.current with
  | none => Except.error (lexErr "unterminated quoted string")
  | some quote =>
    if quote ≠ '\'' && quote ≠ '"' then
      Except.error (lexErr "invalid quote character")
    else
      let (s, lx2) := lx.advance.read_while fun c => c ≠ quote
      if lx2.current = some quote then
        Except.ok (Token.string s, lx2.advance)
      else
        Except.error (lexErr "unterminated quoted string")

/-- `Lexer::read_identifier_token`: `$` followed by a non-empty run of
non-whitespace, non-reserved characters. -/
def Lexer.read_identifier_token (lx : Lexer) : Except Error (Token × Lexer) :=
  if lx.current ≠ some '$' then
    Except.error (lexErr "invalid identifier start")
  else
    let (s, lx2) := lx.advance.read_while fun c =>
      !rustIsWhitespace c && !RESERVED_CHARS.contains c
    if s.isEmpty then Except.error (lexErr "empty identifier")
    else Except.ok (Token.identifier s, lx2)

/-- `Lexer::read_number_token`: the maximal run of numeric characters,
parsed as an `isize`; a run that does not parse is a lexer error (there is
no fallback here). -/
def Lexer.read_number_token (lx : Lexer) : Except Error (Token × Lexer) :=
  let (s, lx') := lx.read_while rustIsNumeric
  match parseIsize s with
  | some n => Except.ok (Token.number n, lx')
  | none => Except.error (lexErr "invalid number literal")

/-- `Lexer::read_filedescriptor_token`: `@` followed by a run of numeric
characters parsed as an `i32`. -/
def Lexer.read_filedescriptor_token (lx : Lexer) : Except Error (Token × Lexer) :=
  if lx.current ≠ some '@' then
    Except.error (lexErr "invalid file descriptor start")
  else
    let (s, lx2) := lx.advance.read_while rustIsNumeric
    match parseI32 s with
    | some n => Except.ok (Token.fileDescriptor n, lx2)
    | none => Except.error (lexErr "invalid file descriptor")

/-- The whitespace-skipping loop at the head of `Lexer::next`, expressed by
jumping the cursor over the maximal whitespace run. -/
def Lexer.skipWhitespace (lx : Lexer) : Lexer :=
  ⟨lx.source, lx.index + ((lx.source.drop lx.index).takeWhile rustIsWhitespace).length⟩

/-- `Lexer::next`: skip whitespace, then dispatch on the first character;
end of input yields `EOF`. -/
def Lexer.next (lx : Lexer) : Except Error (Token × Lexer) :=
  let lx := lx.skipWhitespace
  match lx.current with
  | none => Except.ok (Token.eof, lx)
  | some c =>
    if c = ';' then Except.ok (Token.semicolon, lx.advance)
    else if c = '&' then Except.ok (Token.ampersand, lx.advance)
    else if c = '|' then Except.ok (Token.pipe, lx.advance)
    else if c = '=' then Except.ok (Token.equal, lx.advance)
    else if c = '<' then Except.ok (Token.lessThan, lx.advance)
    else if c = '>' then Except.ok (Token.greaterThan, lx.advance)
    else if c = '$' then lx.read_identifier_token
    else if c = '@' then lx.read_filedescriptor_token
    else if c = '\'' || c = '"' then lx.read_quoted_string_token
    else if c.isDigit then lx.read_number_token
    else
      match lx.read_keyword_token with
      | Except.ok r => Except.ok r
      | Except.error _ => lx.read_string_token

/-- The `Lexer::tokenize` loop: push tokens until `EOF` is pushed.  The
Rust loop is unbounded; it is modelled with fuel.  Every token other than
`EOF` consumes at least one character, so fuel `source.length + 1` always
suffices and the fuel-exhaustion error is unreachable on the initial call
made by `tokenize`. -/
def tokenizeAux : Nat → Lexer → Except Error (List Token)
  | 0, _ => Except.error ⟨ErrorKind.internal, "fuel exhausted"⟩
  | n + 1, lx =>
    match lx.next with
    | Except.error e => Except.error e
    | Except.ok (t, lx') =>
      if t = Token.eof then Except.ok [t]
      else
        match tokenizeAux n lx' with
        | Except.error e => Except.error e
        | Except.ok ts => Except.ok (t :: ts)

/-- `Lexer::tokenize` from `src/src/lexer.rs`. -/
def tokenize (source : List Char) : Except Error (List Token) :=
  tokenizeAux (source.length + 1) (Lexer.new source)

/-- Modelled from the spec: "re-emitting each token of the produced token
sequence as text (via `Token::to_string`), in order" — the printed tokens
are joined with single spaces to form the re-lexed program text. -/
def emitTokens (ts : List Token) : List Char :=
  joinSpaceList (ts.map tokenToString)
where
  joinSpaceList : List (List Char) → List Char
    | [] => []
    | [x] => x
    | x :: xs => x ++ ' ' :: joinSpaceList xs

/-! ## The AST (`src/src/ast/expression.rs`, `src/src/ast/statement.rs`) -/

/-- `Expression` from `src/src/ast/expression.rs`. -/
inductive Expression where
  | null
  | string (s : List Char)
  | number (n : Int)
  | boolean (b : Bool)
  | identifier (s : List Char)
  | fileDescriptor (n : Int)
  deriving DecidableEq, Repr

/-- `RedirectOperator` from `src/src/ast/statement.rs`. -/
inductive RedirectOperator where
  | greaterThan
  | lessThan
  deriving DecidableEq, Repr

/-- `Redirect` from `src/src/ast/statement.rs`. -/
structure Redirect where
  operator : RedirectOperator
  left : Expression
  right : Expression
  deriving DecidableEq, Repr

/-- `Command` from `src/src/ast/statement.rs`: note that the background
flag is itself an `Expression` in the source. -/
structure Cmd where
  name : Expression
  arguments : List Expression
  redirects : List Redirect
  is_background : Expression
  deriving DecidableEq, Repr

/-- `Assignment` from `src/src/ast/statement.rs`. -/
structure Assignment where
  identifier : Expression
  value : Expression
  deriving DecidableEq, Repr

/-! ## The parser (`src/src/parser/lite_parser.rs`)

The parser functions can panic: `parse_command` indexes `tokens[0]` and
`parse_command_arguments` takes the slices `tokens[i..i + 2]` and
`tokens[i..i + 3]`, all of which panic in Rust when out of range.  Results
therefore distinguish a returned `Err` from a panic. -/

/-- The outcome of a Rust expression that may return `Err` or panic. -/
inductive PErr where
  | err (e : Error)
  | panic
  deriving DecidableEq, Repr

/-- Result type for the parser functions. -/
abbrev PRes (α : Type) := Except PErr α

/-- `Result::or_else` / `Result::or`: a returned `Err` is caught and the
alternative is tried; a panic propagates. -/
def pres_or {α : Type} (a : PRes α) (b : Unit → PRes α) : PRes α :=
  match a with
  | Except.error (PErr.err _) => b ()
  | x => x

/-- `Error::NOT_IMPLEMENTED` as a parser failure. -/
def perrNI : PErr := PErr.err Error.NOT_IMPLEMENTED

/-- `parse_null` from `src/src/parser/lite_parser.rs`. -/
def parse_null : Token → PRes Expression
  | Token.null => Except.ok Expression.null
  | _ => Except.error perrNI

/-- `parse_string` from `src/src/parser/lite_parser.rs`. -/
def parse_string : Token → PRes Expression
  | Token.string s => Except.ok (Expression.string s)
  | _ => Except.error perrNI

/-- `parse_identifier` from `src/src/parser/lite_parser.rs`. -/
def parse_identifier : Token → PRes Expression
  | Token.identifier s => Except.ok (Expression.identifier s)
  | _ => Except.error perrNI

/-- `parse_boolean` from `src/src/parser/lite_parser.rs`. -/
def parse_boolean : Token → PRes Expression
  | Token.boolean b => Except.ok (Expression.boolean b)
  | _ => Except.error perrNI

/-- `parse_number` from `src/src/parser/lite_parser.rs`. -/
def parse_number : Token → PRes Expression
  | Token.number n => Except.ok (Expression.number n)
  | _ => Except.error perrNI

/-- `parse_file_descriptor` from `src/src/parser/lite_parser.rs`. -/
def parse_file_descriptor : Token → PRes Expression
  | Token.fileDescriptor n => Except.ok (Expression.fileDescriptor n)
  | _ => Except.error perrNI

/-- `parse_assignment_value` from `src/src/parser/lite_parser.rs`. -/
def parse_assignment_value (t : Token) : PRes Expression :=
  pres_or (parse_null t) fun _ =>
    pres_or (parse_string t) fun _ =>
      pres_or (parse_boolean t) fun _ =>
        pres_or (parse_number t) fun _ => parse_file_descriptor t

/-- `parse_assignment` from `src/src/parser/lite_parser.rs` (the argument
is a `&[Token; 3]`). -/
def parse_assignment (t0 t1 t2 : Token) : PRes Assignment :=
  if t1 ≠ Token.equal then Except.error perrNI
  else do
    let identifier ← parse_identifier t0
    let value ← parse_assignment_value t2
    Except.ok ⟨identifier, value⟩

/-- `parse_redirect_right` from `src/src/parser/lite_parser.rs`. -/
def parse_redirect_right (t : Token) : PRes Expression :=
  pres_or (parse_string t) fun _ =>
    pres_or (parse_identifier t) fun _ =>
      pres_or (parse_number t) fun _ => parse_file_descriptor t

/-- `parse_abbreviated_redirect` from `src/src/parser/lite_parser.rs`: a
bare `>` uses fd 1 as the implicit left side, a bare `<` uses fd 0. -/
def parse_abbreviated_redirect (t0 t1 : Token) : PRes Redirect := do
  let (left, operator) ←
    match t0 with
    | Token.greaterThan =>
      Except.ok (Expression.fileDescriptor 1, RedirectOperator.greaterThan)
    | Token.lessThan =>
      Except.ok (Expression.fileDescriptor 0, RedirectOperator.lessThan)
    | _ => Except.error perrNI
  let right ← parse_redirect_right t1
  Except.ok ⟨operator, left, right⟩

/-- `parse_normal_redirect` from `src/src/parser/lite_parser.rs`. -/
def parse_normal_redirect (t0 t1 t2 : Token) : PRes Redirect := do
  let operator ←
    match t1 with
    | Token.greaterThan => Except.ok RedirectOperator.greaterThan
    | Token.lessThan => Except.ok RedirectOperator.lessThan
    | _ => Except.error perrNI
  let left ← parse_file_descriptor t0
  let right ← parse_redirect_right t2
  Except.ok ⟨operator, left, right⟩

/-- `parse_redirect` from `src/src/parser/lite_parser.rs`: dispatch on the
slice length. -/
def parse_redirect : List Token → PRes Redirect
  | [t0, t1] => parse_abbreviated_redirect t0 t1
  | [t0, t1, t2] => parse_normal_redirect t0 t1 t2
  | _ => Except.error perrNI

/-- `parse_command_name` from `src/src/parser/lite_parser.rs`. -/
def parse_command_name (t : Token) : PRes Expression :=
  pres_or (parse_string t) fun _ =>
    pres_or (parse_identifier t) fun _ => parse_number t

/-- `parse_command_arguments` from `src/src/parser/lite_parser.rs`: the
skip-count loop, expressed recursively.  A `>`/`<` with no following token,
or a `FileDescriptor` with fewer than two following tokens, makes the
source take a slice past the end of the token list — a panic. -/
def parse_command_arguments :
    List Token → PRes (List Expression × List Redirect × Expression)
  | [] => Except.ok ([], [], Expression.boolean false)
  | t :: rest =>
    match t with
    | Token.greaterThan =>
      match rest with
      | [] => Except.error PErr.panic
      | r0 :: rrest => do
        let rd ← parse_redirect [Token.greaterThan, r0]
        let (args, rds, bg) ← parse_command_arguments rrest
        Except.ok (args, rd :: rds, bg)
    | Token.lessThan =>
      match rest with
      | [] => Except.error PErr.panic
      | r0 :: rrest => do
        let rd ← parse_redirect [Token.lessThan, r0]
        let (args, rds, bg) ← parse_command_arguments rrest
        Except.ok (args, rd :: rds, bg)
    | Token.fileDescriptor n =>
      match rest with
      | r0 :: r1 :: rrest => do
        let rd ← parse_redirect [Token.fileDescriptor n, r0, r1]
        let (args, rds, bg) ← parse_command_arguments rrest
        Except.ok (args, rd :: rds, bg)
      | _ => Except.error PErr.panic
    | Token.ampersand =>
      if rest.isEmpty then Except.ok ([], [], Expression.boolean true)
      else Except.error perrNI
    | _ => do
      let arg ← pres_or (parse_number t) fun _ =>
        pres_or (parse_identifier t) fun _ =>
          pres_or (parse_string t) fun _ => Except.error perrNI
      let (args, rds, bg) ← parse_command_arguments rest
      Except.ok (arg :: args, rds, bg)

/-- `parse_command` from `src/src/parser/lite_parser.rs`: `tokens[0]`
panics on an empty token list. -/
def parse_command : List Token → PRes Cmd
  | [] => Except.error PErr.panic
  | t0 :: rest => do
    let name ← parse_command_name t0
    let (arguments, redirects, is_background) ← parse_command_arguments rest
    Except.ok ⟨name, arguments, redirects, is_background⟩

/-- `split` / `recursion_split` from `src/src/parser/lite_parser.rs`,
fused into one structural pass: `split` cuts at the first occurrence of
`place`, and `recursion_split` stops as soon as the right part is empty —
so a trailing `place` produces no empty final segment, while consecutive
occurrences of `place` do produce empty middle segments. -/
def recursionSplitAux (place : Token) : List Token → List Token → List (List Token)
  | [], acc => [acc.reverse]
  | t :: rest, acc =>
    if t = place then
      if rest.isEmpty then [acc.reverse]
      else acc.reverse :: recursionSplitAux place rest []
    else recursionSplitAux place rest (t :: acc)

/-- `recursion_split` from `src/src/parser/lite_parser.rs`. -/
def recursion_split (place : Token) (tokens : List Token) : List (List Token) :=
  recursionSplitAux place tokens []

/-- The loop of `parse_pipe`: parse every segment as a command. -/
def parsePipeCommands : List (List Token) → PRes (List Cmd)
  | [] => Except.ok []
  | seg :: segs => do
    let c ← parse_command seg
    let cs ← parsePipeCommands segs
    Except.ok (c :: cs)

/-- `parse_pipe` from `src/src/parser/lite_parser.rs`: groups shorter than
3 tokens are rejected, then every `Pipe`-separated segment is parsed as a
command. -/
def parse_pipe (tokens : List Token) : PRes (List Cmd) :=
  if tokens.length < 3 then Except.error perrNI
  else parsePipeCommands (recursion_split Token.pipe tokens)

/-! ## The process registry (`src/src/process_handler.rs`)

A `process::Child` is abstracted to its observable data: the pid, and
whether the parent received a piped stdout handle (and that handle's raw
fd).  The `ManuallyDrop` wrapper around each child is modelled by a
`dropped` flag on the entry: `ManuallyDrop::drop` sets it.  The results of
the `wait`/`try_wait` syscalls are supplied by an environment. -/

/-- The observable data of a spawned `process::Child`. -/
structure Child where
  pid : Nat
  hasStdout : Bool
  stdoutFd : Int
  deriving DecidableEq, Repr

/-- One `(ManuallyDrop<Child>, bool)` entry of the `ProcessHandler` vector;
`dropped` records whether `ManuallyDrop::drop` has run on the handle. -/
structure HEntry where
  child : Child
  is_background : Bool
  dropped : Bool
  deriving DecidableEq, Repr

/-- The `ProcessHandler` vector. -/
abbrev Handler := List HEntry

/-- Outcomes of the `wait`/`try_wait` syscalls on each child, supplied by
the operating system: `waitResult pid` is `some status` when `ps.wait()`
returns `Ok(status)`, and `tryWaitResult pid` is `some (some status)`,
`some none` or `none` when `ps.try_wait()` returns `Ok(Some _)`, `Ok(None)`
or `Err(_)`. -/
structure WaitEnv where
  waitResult : Nat → Option Int
  tryWaitResult : Nat → Option (Option Int)

/-- `ProcessHandler::push`: append the child as an un-dropped entry and
return its pid. -/
def handlerPush (h : Handler) (ps : Child) (is_background : Bool) : Nat × Handler :=
  (ps.pid, List.append h [⟨ps, is_background, false⟩])

/-- `ProcessHandler::get`: first entry with the given pid. -/
def handlerGet (h : Handler) (pid : Nat) : Option Child :=
  ((h : List HEntry).find? fun e => e.child.pid = pid).map (·.child)

/-- `ProcessHandler::len`. -/
def handlerLen (h : Handler) : Nat := (h : List HEntry).length

/-- The loop body of `ProcessHandler::wait` for one entry: a background
entry is `try_wait`ed (collected when already exited, handle dropped unless
`try_wait` errs); a foreground entry is `wait`ed (collected on `Ok`, handle
dropped unconditionally).  The entry itself always stays in the vector. -/
def handlerWaitEntry (env : WaitEnv) (e : HEntry) : List (Nat × Int) × HEntry :=
  if e.is_background then
    match env.tryWaitResult e.child.pid with
    | some (some status) => ([(e.child.pid, status)], { e with dropped := true })
    | some none => ([], { e with dropped := true })
    | none => ([], e)
  else
    match env.waitResult e.child.pid with
    | some status => ([(e.child.pid, status)], { e with dropped := true })
    | none => ([], { e with dropped := true })

/-- `ProcessHandler::wait`: fold `handlerWaitEntry` over the entries in
insertion order, collecting the statuses.  Note the vector keeps all its
entries — `wait` drops handles in place but removes nothing. -/
def handlerWait (env : WaitEnv) : Handler → List (Nat × Int) × Handler
  | ([] : List HEntry) => ([], [])
  | (e :: rest : List HEntry) =>
    let (v, e') := handlerWaitEntry env e
    let (vs, rest') := handlerWait env rest
    (v ++ vs, (e' :: rest' : List HEntry))

/-! ## The executor (`src/src/execute.rs`, `src/src/builtin/common.rs`)

The operating system is abstracted into a `World`: the filesystem queries
made by `cd`, the `env::set_current_dir` call, glob expansion, the result
of `Command::spawn`, and the wait syscalls.  Paths and command names are
`String`s. -/

/-- `Statement` from `src/src/ast/statement.rs` (the `Sequence` and `Pipe`
wrappers around `VecDeque` are plain lists). -/
inductive Statement where
  | sequence (stmts : List Statement)
  | assignment (a : Assignment)
  | redirect (r : Redirect)
  | command (c : Cmd)
  | pipeStmt (cmds : List Cmd)

/-- `State` from `src/src/state.rs`. -/
structure State where
  handler : Handler
  pipe : Pipe
  current_dir : String

/-- `State::new`. -/
def State.new : State := ⟨([] : List HEntry), Pipe.new, ""⟩

/-- The operating-system environment consulted by the executor.
`globbing` is modelled from the spec ("If the pattern matches at least one
filesystem path, emit all matches … as separate arguments; otherwise emit
the literal string"): the function `utils::globbing` named by
`src/src/execute.rs` has no definition under `src/`.  `spawnOk`,
`spawnPid` and `pipeFd` describe the next `Command::spawn`. -/
structure World where
  cwd : String
  canonicalize : String → Option String
  isDir : String → Bool
  isFile : String → Bool
  setCwdOk : String → Bool
  globbing : String → List String
  spawnOk : Bool
  spawnPid : Nat
  pipeFd : Int
  waitEnv : WaitEnv

/-- The outcome of running a piece of Rust code that may return a value,
return an `Err`, terminate the process (`process::exit` /
`process::abort`), or panic (`unwrap`, `todo!`, slice indexing). -/
inductive Out (α : Type) where
  | ok (a : α)
  | err (e : Error)
  | exit (code : Int)
  | abort
  | panic
  deriving DecidableEq, Repr

/-- `Path::join`, on string paths: an absolute right side replaces the
left side. -/
def rustPathJoin (current target : String) : String :=
  if target.toList.head? = some '/' then target else current ++ "/" ++ target

/-- `cd` from `src/src/builtin/common.rs`, including its inlined `analyze`:
canonicalize the current directory, require it to be a directory, resolve
and canonicalize the target — and then re-check that the *current*
directory is a directory (the source repeats `!current.is_dir()` instead of
checking the resolved path) — finally `env::set_current_dir`.  The resolved
path is returned; the shell state is not touched here. -/
def common_cd (p : String) (current_path : String) (w : World) :
    Except Error String × World :=
  match w.canonicalize current_path with
  | none => (Except.error ⟨ErrorKind.invalidPath, ""⟩, w)
  | some current =>
    if !w.isDir current then (Except.error ⟨ErrorKind.notADirectory, ""⟩, w)
    else
      match w.canonicalize (rustPathJoin current p) with
      | none => (Except.error ⟨ErrorKind.invalidPath, ""⟩, w)
      | some path =>
        if !w.isDir current then (Except.error ⟨ErrorKind.notADirectory, ""⟩, w)
        else if w.setCwdOk path then
          (Except.ok path, { w with cwd := path })
        else
          (Except.error ⟨ErrorKind.permissionDenied, ""⟩, w)

/-- `cd` from `src/src/builtin/mod.rs` (the draft that receives
`&mut State`): same resolution, but the verification step rejects a
resolved path that is a file, and the shell state's current directory is
overwritten *before* `env::set_current_dir` is attempted. -/
def mod_cd (p : String) (s : State) (w : World) :
    Except Error Unit × State × World :=
  match w.canonicalize s.current_dir with
  | none => (Except.error Error.NOT_IMPLEMENTED, s, w)
  | some current =>
    if !w.isDir current then (Except.error Error.NOT_IMPLEMENTED, s, w)
    else
      match w.canonicalize (rustPathJoin current p) with
      | none => (Except.error Error.NOT_IMPLEMENTED, s, w)
      | some path =>
        if w.isFile path then (Except.error Error.NOT_IMPLEMENTED, s, w)
        else
          let s' := { s with current_dir := path }
          if w.setCwdOk path then
            (Except.ok (), s', { w with cwd := path })
          else
            (Except.error Error.NOT_IMPLEMENTED, s', w)

/-- `str::parse::<i32>` on a `String`. -/
def rustParseI32String (s : String) : Option Int := parseI32 s.toList

/-- `execute_builtin_command` from `src/src/execute.rs`: `cd` calls the
`builtin::cd` whose signature takes the current directory as a plain path
(`src/src/builtin/common.rs`) and discards the returned resolved path;
`abort` and `exit` terminate the process (`exit` parses its argument as an
`i32`, defaulting to 0); anything else is `Error::NOT_IMPLEMENTED`. -/
def execute_builtin_command (name : String) (args : List String) (s : State)
    (w : World) : Out Unit × State × World :=
  if name = "cd" then
    match common_cd (args.head?.getD "/") s.current_dir w with
    | (Except.ok _path, w') => (Out.ok (), s, w')
    | (Except.error e, w') => (Out.err e, s, w')
  else if name = "abort" then (Out.abort, s, w)
  else if name = "exit" then
    (Out.exit ((rustParseI32String (args.head?.getD "0")).getD 0), s, w)
  else (Out.err Error.NOT_IMPLEMENTED, s, w)

/-- The stdin selection at the head of `execute_process_command`: when the
pipe is `Recvable` the stored reader is taken (`recv().unwrap()` — a panic
on failure), otherwise stdin is inherited. -/
def pipeStdinStep (s : State) : Out Unit × State :=
  if s.pipe.state = PipeState.recvable then
    match s.pipe.recv with
    | (Except.ok _fd, p') => (Out.ok (), { s with pipe := p' })
    | (Except.error _, _) => (Out.panic, s)
  else (Out.ok (), s)

/-- `execute_process_command` from `src/src/execute.rs`: take the pipe's
stored reader as stdin when the pipe is `Recvable` (`recv().unwrap()`
panics on failure), give the child a piped stdout exactly when the pipe is
`Sendable` and this is not the last command of the pipeline, spawn, push
the child on the registry, and deposit a produced stdout reader into the
pipe (`send(fd).unwrap()` panics on failure).  The pre-exec redirection
hook runs in the child and is not observable in the parent state. -/
def execute_process_command (_name : String) (_args : List String)
    (_redirects : List Redirect) (is_background : Bool) (s : State) (w : World)
    (is_last : Bool) : Out Unit × State × World :=
  match pipeStdinStep s with
  | (Out.ok _, s1) =>
    let stdoutPiped := decide (s1.pipe.state = PipeState.sendable) && !is_last
    if w.spawnOk then
      let child : Child := ⟨w.spawnPid, stdoutPiped, w.pipeFd⟩
      let (pid, h') := handlerPush s1.handler child is_background
      let s2 := { s1 with handler := h' }
      match handlerGet s2.handler pid with
      | some c =>
        if c.hasStdout then
          match s2.pipe.send c.stdoutFd with
          | (Except.ok _, p') => (Out.ok (), { s2 with pipe := p' }, w)
          | (Except.error _, _) => (Out.panic, s2, w)
        else (Out.ok (), s2, w)
      | none => (Out.ok (), s2, w)
    else (Out.err ⟨ErrorKind.other, "spawn failed"⟩, s1, w)
  | (out, s1) => (out, s1, w)

/-- Name resolution in `execute_command` from `src/src/execute.rs`. -/
def resolveCommandName (e : Expression) (sh : ShVars) : Except Error String :=
  match e with
  | Expression.string s => Except.ok (String.mk s)
  | Expression.identifier id =>
    match sh.get (String.mk id) with
    | none => Except.error Error.NOT_IMPLEMENTED
    | some v => Except.ok v
  | Expression.number n => Except.ok (String.mk (intToChars n))
  | _ => Except.error Error.NOT_IMPLEMENTED

/-- Argument resolution in `execute_command` from `src/src/execute.rs`: a
string argument is glob-expanded when the pattern matches at least one
path, a missing identifier resolves to the empty string. -/
def resolveCommandArgs (args : List Expression) (sh : ShVars) (w : World) :
    Except Error (List String) :=
  match args with
  | [] => Except.ok []
  | a :: rest => do
    let hd : List String ←
      match a with
      | Expression.string str =>
        let sv := w.globbing (String.mk str)
        if sv.length > 0 then Except.ok sv else Except.ok [String.mk str]
      | Expression.number n => Except.ok [String.mk (intToChars n)]
      | Expression.identifier id => Except.ok [(sh.get (String.mk id)).getD ""]
      | _ => Except.error Error.NOT_IMPLEMENTED
    let tl ← resolveCommandArgs rest sh w
    Except.ok (hd ++ tl)

/-- `execute_command` from `src/src/execute.rs`: resolve name and
arguments, try the builtin, and on *any* builtin `Err` fall back to
spawning an external process (whose `io::Error` is mapped to
`Error::NOT_IMPLEMENTED`). -/
def execute_command (c : Cmd) (s : State) (sh : ShVars) (w : World)
    (is_last : Bool) : Out Unit × State × World :=
  match resolveCommandName c.name sh with
  | Except.error e => (Out.err e, s, w)
  | Except.ok name =>
    match resolveCommandArgs c.arguments sh w with
    | Except.error e => (Out.err e, s, w)
    | Except.ok arguments =>
      let is_background :=
        match c.is_background with
        | Expression.boolean b => b
        | _ => false
      match execute_builtin_command name arguments s w with
      | (Out.err _, s', w') =>
        match execute_process_command name arguments c.redirects is_background
            s' w' is_last with
        | (Out.err _, s'', w'') => (Out.err Error.NOT_IMPLEMENTED, s'', w'')
        | r => r
      | r => r

/-- `execute_assignment` from `src/src/execute.rs`: the identifier must be
an `Identifier`, the value is coerced to a string (`Null` coerces to the
empty string), and the `Result` of `ShVars::insert` is discarded. -/
def execute_assignment (a : Assignment) (sh : ShVars) : Out Unit × ShVars :=
  match a.identifier with
  | Expression.identifier id =>
    let value? : Except Error String :=
      match a.value with
      | Expression.null => Except.ok ""
      | Expression.string s => Except.ok (String.mk s)
      | Expression.boolean b => Except.ok (if b then "true" else "false")
      | Expression.number n => Except.ok (String.mk (intToChars n))
      | Expression.fileDescriptor fd => Except.ok (String.mk (intToChars fd))
      | _ => Except.error Error.NOT_IMPLEMENTED
    match value? with
    | Except.error e => (Out.err e, sh)
    | Except.ok value =>
      let (_, sh') := sh.insert (String.mk id) value
      (Out.ok (), sh')
  | _ => (Out.err Error.NOT_IMPLEMENTED, sh)

/-- The loop of the `Statement::Pipe` branch of `execute`: pop commands
from the front, executing each with `is_last = pipe.is_empty()`. -/
def executePipeCommands (cmds : List Cmd) (s : State) (sh : ShVars) (w : World) :
    Out Unit × State × World :=
  match cmds with
  | [] => (Out.ok (), s, w)
  | c :: rest =>
    match execute_command c s sh w rest.isEmpty with
    | (Out.ok _, s', w') => executePipeCommands rest s' sh w'
    | r => r

/-- `execute` from `src/src/execute.rs`.  A `Sequence` executes its
statements in order, stopping at the first failure; `Redirect` is
`todo!()` (a panic); a single `Command` executes with `is_last = true` and
nothing more; a `Pipe` opens the coordinator, runs the commands, closes
the coordinator and calls `ProcessHandler::wait` (discarding its result
and keeping the registry's entries). -/
def execute (ast : Statement) (s : State) (sh : ShVars) (w : World) :
    Out Unit × State × ShVars × World :=
  match ast with
  | Statement.sequence stmts => executeSeq stmts s sh w
  | Statement.assignment a =>
    let (out, sh') := execute_assignment a sh
    (out, s, sh', w)
  | Statement.redirect _ => (Out.panic, s, sh, w)
  | Statement.command c =>
    let (out, s', w') := execute_command c s sh w true
    (out, s', sh, w')
  | Statement.pipeStmt cmds =>
    let s0 := { s with pipe := Pipe.mkOpen }
    match executePipeCommands cmds s0 sh w with
    | (Out.ok _, s1, w1) =>
      match s1.pipe.close with
      | (Except.ok _, p') =>
        let s2 := { s1 with pipe := p' }
        let (_v, h') := handlerWait w1.waitEnv s2.handler
        (Out.ok (), { s2 with handler := h' }, sh, w1)
      | (Except.error e, p') => (Out.err e, { s1 with pipe := p' }, sh, w1)
    | (out, s1, w1) => (out, s1, sh, w1)
where
  executeSeq : List Statement → State → ShVars → World →
      Out Unit × State × ShVars × World
    | [], s, sh, w => (Out.ok (), s, sh, w)
    | st :: rest, s, sh, w =>
      match execute st s sh w with
      | (Out.ok _, s', sh', w') => executeSeq rest s' sh' w'
      | r => r

/-! ## Claim C3: the pipe coordinator state machine -/

/-- C3 (counterexample).  The claim fails on the code in two places, both
shown here at explicit inputs.  (1) From `Pipe::open`, `send(-1)` succeeds
and stores the endpoint `-1` in the `Recvable` state; `recv` on that pipe —
which *is* `Recvable` with a stored endpoint — nevertheless fails (the
source rejects a stored negative fd), refuting "recv succeeds exactly when
it is in Recvable with a stored endpoint".  (2) `send` while `Closed`
returns `Error::NOT_IMPLEMENTED`, whose kind is `NotImplemented` — a
distinct variant from `Internal` in `ErrorKind` — refuting "returns an
internal error". -/
theorem c3_pipe_counterexample :
    Pipe.mkOpen.send (-1) =
      (Except.ok (), ⟨PipeState.recvable, some (-1)⟩) ∧
    Pipe.recv ⟨PipeState.recvable, some (-1)⟩ =
      (Except.error Error.NOT_IMPLEMENTED, ⟨PipeState.recvable, some (-1)⟩) ∧
    Pipe.new.send 3 = (Except.error Error.NOT_IMPLEMENTED, Pipe.new) ∧
    Error.NOT_IMPLEMENTED.kind ≠ ErrorKind.internal := by
  decide

/-- C3 (amended).  `send` succeeds exactly when the pipe is `Sendable` with
no stored endpoint and moves it to `Recvable`; `recv` succeeds exactly when
the pipe is `Recvable` with a stored *nonnegative* endpoint, returns that
endpoint, and moves the pipe to `Sendable`; every other `send` or `recv`
(including while `Closed`, and `recv` of a stored negative endpoint)
returns the not-implemented error `Error::NOT_IMPLEMENTED` and leaves the
pipe unchanged. -/
theorem c3_pipe_state_machine (p : Pipe) (fd : Int) :
    (p.state = PipeState.sendable ∧ p.fd = none →
      p.send fd = (Except.ok (), ⟨PipeState.recvable, some fd⟩)) ∧
    (¬(p.state = PipeState.sendable ∧ p.fd = none) →
      p.send fd = (Except.error Error.NOT_IMPLEMENTED, p)) ∧
    (∀ f, p.state = PipeState.recvable → p.fd = some f → 0 ≤ f →
      p.recv = (Except.ok f, ⟨PipeState.sendable, none⟩)) ∧
    (¬(p.state = PipeState.recvable ∧ ∃ f, p.fd = some f ∧ 0 ≤ f) →
      p.recv = (Except.error Error.NOT_IMPLEMENTED, p)) := by
  obtain ⟨st, fd?⟩ := p
  refine ⟨?_, ?_, ?_, ?_⟩
  · rintro ⟨hs, hf⟩
    subst hs; subst hf
    simp [Pipe.send]
  · intro h
    cases st <;> rcases fd? with _ | f <;> simp_all [Pipe.send]
  · rintro f hs hf hpos
    subst hs; subst hf
    simp [Pipe.recv, show ¬(f < 0) from by omega]
  · intro h
    cases st <;> rcases fd? with _ | f <;> simp [Pipe.recv]
    have hneg : f < 0 := by
      by_contra hge
      exact h ⟨rfl, f, rfl, by omega⟩
    simp [hneg]

/-- C3 (witness): the amended theorem applied at `Pipe::open` and fd 7. -/
theorem c3_pipe_state_machine_witness :
    Pipe.mkOpen.send 7 = (Except.ok (), ⟨PipeState.recvable, some 7⟩) :=
  (c3_pipe_state_machine Pipe.mkOpen 7).1 (by decide)

/-! ## Claim C10: the `Pipe` representation invariant -/

/-- C10.  From `Pipe::new` and `Pipe::open` the stored fd is `Some` exactly
in the `Recvable` state, and every operation — `send`, `recv`, `close`,
`quit`, `cancel` — preserves this representation invariant whether it
succeeds or fails. -/
theorem c10_pipe_fd_invariant (p : Pipe) (fd : Int) (h : p.inv) :
    Pipe.new.inv ∧ Pipe.mkOpen.inv ∧
    (p.send fd).2.inv ∧ p.recv.2.inv ∧ p.close.2.inv ∧
    p.quit.inv ∧ p.cancel.inv := by
  obtain ⟨st, fd?⟩ := p
  refine ⟨by simp [Pipe.new, Pipe.inv], by simp [Pipe.mkOpen, Pipe.inv],
    ?_, ?_, ?_, by simp [Pipe.quit, Pipe.inv], by simp [Pipe.cancel, Pipe.inv]⟩
  · cases st <;> rcases fd? with _ | f <;>
      simp_all [Pipe.send, Pipe.inv]
  · cases st <;> rcases fd? with _ | f <;>
      simp_all [Pipe.recv, Pipe.inv]
    rcases lt_or_le f 0 with hf | hf
    · simp [show f < 0 from hf]
    · simp [show ¬(f < 0) from by omega]
  · cases st <;> rcases fd? with _ | f <;>
      simp_all [Pipe.close, Pipe.inv]
    rcases lt_or_le f 0 with hf | hf
    · simp [show ¬(0 ≤ f) from by omega]
    · simp [show (0 : Int) ≤ f from hf]

/-- C10 (witness): the invariant theorem applied at `Pipe::open` with
fd 5. -/
theorem c10_pipe_fd_invariant_witness :
    (Pipe.mkOpen.send 5).2.inv :=
  (c10_pipe_fd_invariant Pipe.mkOpen 5 (by decide)).2.2.1

/-! ## Claim C5: variable-store laws -/

/-- C5.  Inserting with an empty key fails with an error and leaves the
store unchanged; inserting with a non-empty key succeeds and a subsequent
`get` returns `"null"` when the inserted value was empty and the value
itself otherwise; after `remove(k)`, `get(k)` is `None`. -/
theorem c5_sh_vars_laws (m : ShVars) (k v : String) (h : k ≠ "") :
    (∀ v', m.insert "" v' = (Except.error Error.NOT_IMPLEMENTED, m)) ∧
    (m.insert k v).1 = Except.ok () ∧
    (m.insert k v).2.get k = some (if v = "" then "null" else v) ∧
    (m.remove k).get k = none := by
  refine ⟨fun v' => by simp [ShVars.insert], ?_, ?_, ?_⟩
  · simp [ShVars.insert, h]
  · simp [ShVars.insert, ShVars.get, h]
  · simp [ShVars.remove, ShVars.get]

/-- C5 (witness): the store laws applied at key `"A"` and the empty value
on the empty store. -/
theorem c5_sh_vars_laws_witness :
    (ShVars.new.insert "A" "").2.get "A" = some "null" := by
  have := (c5_sh_vars_laws ShVars.new "A" "" (by decide)).2.2.1
  simpa using this

/-! ## Helper lemmas about the preprocessor stages -/

/-- On `'#'`-free input the comment flag never fires and `remove_comments`
copies its input, whatever the quote state. -/
theorem removeCommentsAux_of_no_hash (l : List Char) :
    '#' ∉ l → ∀ q : Bool, removeCommentsAux false q l = l := by
  induction l with
  | nil => intro _ q; rfl
  | cons c rest ih =>
    intro h q
    have hc : ¬(c = '#') := fun hh => h (hh ▸ List.mem_cons_self c rest)
    have hrest : '#' ∉ rest := fun hh => h (List.mem_cons_of_mem c hh)
    simp [removeCommentsAux, rcStart, rcReset, hc, ih hrest]

/-- Every character emitted by `remove_comments` comes from the input. -/
theorem mem_of_mem_removeCommentsAux (c : Char) :
    ∀ (l : List Char) (b q : Bool), c ∈ removeCommentsAux b q l → c ∈ l := by
  intro l
  induction l with
  | nil => intro b q h; simp [removeCommentsAux] at h
  | cons x rest ih =>
    intro b q h
    simp only [removeCommentsAux] at h
    rcases List.mem_append.mp h with h1 | h2
    · have hcx : c = x := by
        split at h1
        · simp at h1
        · simpa using h1
      exact hcx ▸ List.mem_cons_self x rest
    · exact List.mem_cons_of_mem x (ih _ _ h2)

/-- `stripTrailingCR` only removes characters. -/
theorem mem_of_mem_stripTrailingCR (c : Char) (l : List Char)
    (h : c ∈ stripTrailingCR l) : c ∈ l := by
  unfold stripTrailingCR at h
  split at h
  · exact (List.dropLast_sublist _).subset h
  · exact h

/-- Every character of every line produced by `rustLinesAux` comes from
the remaining input or the accumulator. -/
theorem mem_of_mem_rustLinesAux (c : Char) :
    ∀ (s acc : List Char) (l : List Char), l ∈ rustLinesAux s acc → c ∈ l →
      c ∈ s ∨ c ∈ acc := by
  intro s
  induction s with
  | nil =>
    intro acc l hl hc
    simp only [rustLinesAux] at hl
    split at hl
    · simp at hl
    · simp at hl
      subst hl
      exact Or.inr (List.mem_reverse.mp hc)
  | cons x rest ih =>
    intro acc l hl hc
    simp only [rustLinesAux] at hl
    split at hl
    · rcases List.mem_cons.mp hl with h1 | h2
      · subst h1
        exact Or.inr (List.mem_reverse.mp (mem_of_mem_stripTrailingCR c _ hc))
      · rcases ih [] l h2 hc with h | h
        · exact Or.inl (List.mem_cons_of_mem x h)
        · simp at h
    · rcases ih (x :: acc) l hl hc with h | h
      · exact Or.inl (List.mem_cons_of_mem x h)
      · rcases List.mem_cons.mp h with h' | h'
        · exact Or.inl (h' ▸ List.mem_cons_self x rest)
        · exact Or.inr h'

/-- Membership in a `joinNL` of lines: a character of some line is a
character of the join. -/
theorem mem_joinNL_of_mem (c : Char) :
    ∀ (ls : List (List Char)) (l : List Char), l ∈ ls → c ∈ l → c ∈ joinNL ls := by
  intro ls
  induction ls with
  | nil => intro l h; simp at h
  | cons x xs ih =>
    intro l hl hc
    rcases List.mem_cons.mp hl with h | h
    · subst h
      cases xs with
      | nil => simpa [joinNL] using hc
      | cons y ys => exact List.mem_append.mpr (Or.inl hc)
    · cases xs with
      | nil => simp at h
      | cons y ys =>
        refine List.mem_append.mpr (Or.inr ?_)
        exact List.mem_cons_of_mem '\n' (ih l h hc)

/-- Every character of a `joinNL` is a `'\n'` or comes from some line. -/
theorem mem_of_mem_joinNL (c : Char) :
    ∀ ls : List (List Char), c ∈ joinNL ls → c = '\n' ∨ ∃ l ∈ ls, c ∈ l := by
  intro ls
  induction ls with
  | nil => intro h; simp [joinNL] at h
  | cons x xs ih =>
    intro h
    cases xs with
    | nil => exact Or.inr ⟨x, List.mem_cons_self x [], by simpa [joinNL] using h⟩
    | cons y ys =>
      rcases List.mem_append.mp h with h1 | h2
      · exact Or.inr ⟨x, List.mem_cons_self x _, h1⟩
      · rcases List.mem_cons.mp h2 with h3 | h4
        · exact Or.inl h3
        · rcases ih h4 with h5 | ⟨l, hl, hc⟩
          · exact Or.inl h5
          · exact Or.inr ⟨l, List.mem_cons_of_mem x hl, hc⟩

/-- Every character of `remove_empty_line l` is a `'\n'` or a character of
`l`. -/
theorem mem_of_mem_remove_empty_line (c : Char) (l : List Char)
    (h : c ∈ remove_empty_line l) : c = '\n' ∨ c ∈ l := by
  unfold remove_empty_line at h
  rcases mem_of_mem_joinNL c _ h with h1 | ⟨line, hline, hc⟩
  · exact Or.inl h1
  · have hmem := List.mem_of_mem_filter hline
    rcases mem_of_mem_rustLinesAux c l [] line hmem hc with h2 | h2
    · exact Or.inr h2
    · simp at h2

/-- Characters of `replaceCRLF` are `';'` or come from the input. -/
theorem mem_of_mem_replaceCRLF (c : Char) :
    ∀ l : List Char, c ∈ replaceCRLF l → c = ';' ∨ c ∈ l := by
  intro l
  induction l using replaceCRLF.induct with
  | case1 => intro h; simp [replaceCRLF] at h
  | case2 x => intro h; exact Or.inr (by simpa [replaceCRLF] using h)
  | case3 c1 c2 rest hguard ih =>
    intro h
    simp only [replaceCRLF, hguard, if_true] at h
    rcases List.mem_cons.mp h with h1 | h2
    · exact Or.inl h1
    · rcases ih h2 with h3 | h3
      · exact Or.inl h3
      · exact Or.inr (List.mem_cons_of_mem c1 (List.mem_cons_of_mem c2 h3))
  | case4 c1 c2 rest hguard ih =>
    intro h
    simp only [replaceCRLF] at h
    rw [if_neg (by simpa using hguard)] at h
    rcases List.mem_cons.mp h with h1 | h2
    · exact Or.inr (h1 ▸ List.mem_cons_self c1 _)
    · rcases ih h2 with h3 | h3
      · exact Or.inl h3
      · exact Or.inr (List.mem_cons_of_mem c1 h3)

/-- Characters of `replaceLF` are `';'` or come from the input. -/
theorem mem_of_mem_replaceLF (c : Char) :
    ∀ l : List Char, c ∈ replaceLF l → c = ';' ∨ c ∈ l := by
  intro l
  induction l with
  | nil => intro h; simp [replaceLF] at h
  | cons x rest ih =>
    intro h
    rcases List.mem_cons.mp h with h1 | h2
    · split at h1
      · exact Or.inl h1
      · exact Or.inr (h1 ▸ List.mem_cons_self x rest)
    · rcases ih h2 with h3 | h3
      · exact Or.inl h3
      · exact Or.inr (List.mem_cons_of_mem x h3)

/-- `replaceLF` leaves no `'\n'` in its output. -/
theorem lf_not_mem_replaceLF : ∀ l : List Char, '\n' ∉ replaceLF l := by
  intro l
  induction l with
  | nil => simp [replaceLF]
  | cons x rest ih =>
    intro h
    simp only [replaceLF] at h
    rcases List.mem_cons.mp h with h1 | h2
    · split at h1
      · simp at h1
      · rename_i hx
        exact hx h1.symm
    · exact ih h2

/-- Characters of the semicolon-collapsing pass come from the input. -/
theorem mem_of_mem_collapseSemicolonsAux (c : Char) :
    ∀ (l : List Char) (b : Bool), c ∈ collapseSemicolonsAux b l → c ∈ l := by
  intro l
  induction l with
  | nil => intro b h; simp [collapseSemicolonsAux] at h
  | cons x rest ih =>
    intro b h
    simp only [collapseSemicolonsAux] at h
    split at h
    · split at h
      · exact List.mem_cons_of_mem x (ih _ h)
      · rcases List.mem_cons.mp h with h1 | h2
        · simp_all
        · exact List.mem_cons_of_mem x (ih _ h2)
    · rcases List.mem_cons.mp h with h1 | h2
      · exact h1 ▸ List.mem_cons_self x rest
      · exact List.mem_cons_of_mem x (ih _ h2)

/-- A non-`';'` input character survives the collapsing pass. -/
theorem mem_collapseSemicolonsAux_of_ne (c : Char) (hc : c ≠ ';') :
    ∀ (l : List Char) (b : Bool), c ∈ l → c ∈ collapseSemicolonsAux b l := by
  intro l
  induction l with
  | nil => intro b h; simp at h
  | cons x rest ih =>
    intro b h
    rcases List.mem_cons.mp h with h1 | h2
    · subst h1
      simp only [collapseSemicolonsAux]
      split
      · exact absurd (by assumption) hc
      · exact List.mem_cons_self c _
    · simp only [collapseSemicolonsAux]
      split
      · split
        · exact ih _ h2
        · exact List.mem_cons_of_mem ';' (ih _ h2)
      · exact List.mem_cons_of_mem x (ih _ h2)

/-- A `';'` in the input keeps at least one `';'` in the collapsed output
when the scanner is not already inside a semicolon run. -/
theorem semi_mem_collapseSemicolonsAux :
    ∀ l : List Char, ';' ∈ l → ';' ∈ collapseSemicolonsAux false l := by
  intro l
  induction l with
  | nil => intro h; simp at h
  | cons x rest ih =>
    intro h
    by_cases hx : x = ';'
    · subst hx
      simp [collapseSemicolonsAux]
    · simp only [collapseSemicolonsAux, hx, if_false]
      rcases List.mem_cons.mp h with h1 | h2
      · exact absurd h1.symm hx
      · exact List.mem_cons_of_mem x (ih h2)

/-- The collapsing pass (as started by `preprocess`) returns `[]` only on
`[]`. -/
theorem collapseSemicolons_eq_nil (l : List Char)
    (h : collapseSemicolons l = []) : l = [] := by
  cases l with
  | nil => rfl
  | cons x rest =>
    simp only [collapseSemicolons, collapseSemicolonsAux] at h
    split at h <;> simp at h

/-- `replaceCRLF` returns `[]` only on `[]`. -/
theorem replaceCRLF_eq_nil (l : List Char) (h : replaceCRLF l = []) : l = [] := by
  cases l with
  | nil => rfl
  | cons x rest =>
    cases rest with
    | nil => simp [replaceCRLF] at h
    | cons y rest' =>
      simp only [replaceCRLF] at h
      split at h <;> simp at h

/-- `replaceLF` returns `[]` only on `[]`. -/
theorem replaceLF_eq_nil (l : List Char) (h : replaceLF l = []) : l = [] := by
  cases l with
  | nil => rfl
  | cons x rest => simp [replaceLF] at h

/-- On `'\n'`-free input, `replaceCRLF` is the identity. -/
theorem replaceCRLF_of_no_lf (l : List Char) (h : '\n' ∉ l) :
    replaceCRLF l = l := by
  induction l using replaceCRLF.induct with
  | case1 => rfl
  | case2 x => rfl
  | case3 c1 c2 rest hguard ih =>
    have hg : c1 = '\r' ∧ c2 = '\n' := by simpa using hguard
    exact absurd hg.2
      (fun hh => h (hh ▸ List.mem_cons_of_mem c1 (List.mem_cons_self c2 rest)))
  | case4 c1 c2 rest hguard ih =>
    have h2 : '\n' ∉ c2 :: rest := fun hh => h (List.mem_cons_of_mem c1 hh)
    simp only [replaceCRLF]
    rw [if_neg (by simpa using hguard)]
    rw [ih h2]

/-- On `'\n'`-free input, `replaceLF` is the identity. -/
theorem replaceLF_of_no_lf (l : List Char) (h : '\n' ∉ l) :
    replaceLF l = l := by
  induction l with
  | nil => rfl
  | cons x rest ih =>
    have hx : ¬(x = '\n') := fun hh => h (hh ▸ List.mem_cons_self x rest)
    have hrest : '\n' ∉ rest := fun hh => h (List.mem_cons_of_mem x hh)
    simp [replaceLF, hx, ih hrest]

/-- If every character of `l` is whitespace then `rustTrim l = []`. -/
theorem rustTrim_eq_nil_of_all_ws (l : List Char)
    (h : ∀ c ∈ l, rustIsWhitespace c) : rustTrim l = [] := by
  unfold rustTrim
  have h1 : l.dropWhile rustIsWhitespace = [] :=
    List.dropWhile_eq_nil_iff.mpr h
  simp [h1]

/-- Contrapositive form: a list whose trim is non-empty contains a
non-whitespace character. -/
theorem exists_nonws_of_rustTrim_ne_nil (l : List Char)
    (h : rustTrim l ≠ []) : ∃ c ∈ l, ¬rustIsWhitespace c := by
  by_contra hall
  push_neg at hall
  exact h (rustTrim_eq_nil_of_all_ws l (by simpa using hall))

/-- A non-whitespace character makes the trim non-empty. -/
theorem rustTrim_ne_nil_of_exists_nonws (l : List Char)
    (c : Char) (hc : c ∈ l) (hw : ¬rustIsWhitespace c) : rustTrim l ≠ [] := by
  intro hnil
  unfold rustTrim at hnil
  have h2 : (l.dropWhile rustIsWhitespace).reverse.dropWhile rustIsWhitespace = [] := by
    rcases List.reverse_eq_nil_iff.mp hnil with h
    exact h
  have hall2 : ∀ x ∈ (l.dropWhile rustIsWhitespace).reverse, rustIsWhitespace x :=
    List.dropWhile_eq_nil_iff.mp h2
  have hall : ∀ x ∈ l.dropWhile rustIsWhitespace, rustIsWhitespace x := by
    intro x hx
    exact hall2 x (List.mem_reverse.mpr hx)
  have : l.takeWhile rustIsWhitespace ++ l.dropWhile rustIsWhitespace = l :=
    List.takeWhile_append_dropWhile rustIsWhitespace l
  rcases List.mem_append.mp (this ▸ hc) with h3 | h3
  · exact hw (List.mem_takeWhile_imp h3)
  · exact hw (hall c h3)

/-- On `'\n'`-free input the `lines` iterator yields the input as a single
line (or nothing when the input is empty), with no `'\r'` stripping. -/
theorem rustLinesAux_of_no_lf (s : List Char) (h : '\n' ∉ s) :
    ∀ acc : List Char, rustLinesAux s acc =
      if (acc.reverse ++ s).isEmpty then [] else [acc.reverse ++ s] := by
  induction s with
  | nil => intro acc; simp [rustLinesAux]
  | cons x rest ih =>
    intro acc
    have hx : ¬(x = '\n') := fun hh => h (hh ▸ List.mem_cons_self x rest)
    have hrest : '\n' ∉ rest := fun hh => h (List.mem_cons_of_mem x hh)
    simp only [rustLinesAux, hx, if_false]
    rw [ih hrest (x :: acc)]
    simp

/-- `remove_empty_line` is the identity on a `'\n'`-free list that is
empty or has a non-empty trim. -/
theorem remove_empty_line_of_no_lf (y : List Char) (h : '\n' ∉ y)
    (hside : y = [] ∨ rustTrim y ≠ []) : remove_empty_line y = y := by
  rcases hside with hnil | htrim
  · subst hnil; rfl
  · unfold remove_empty_line rustLines
    rw [rustLinesAux_of_no_lf y h []]
    have hne : y ≠ [] := by
      intro hy
      exact htrim (by simp [hy, rustTrim])
    simp only [List.reverse_nil, List.nil_append]
    rw [if_neg (by simpa using hne)]
    have hfe : (rustTrim y).isEmpty = false := by
      simpa [List.isEmpty_iff] using htrim
    simp [List.filter, hfe, joinNL]

/-- The three-way idempotence of the semicolon-collapsing fold. -/
theorem collapseSemicolonsAux_idem (l : List Char) :
    collapseSemicolonsAux true (collapseSemicolonsAux true l) =
      collapseSemicolonsAux true l ∧
    collapseSemicolonsAux false (collapseSemicolonsAux true l) =
      collapseSemicolonsAux true l ∧
    collapseSemicolonsAux false (collapseSemicolonsAux false l) =
      collapseSemicolonsAux false l := by
  induction l with
  | nil => exact ⟨rfl, rfl, rfl⟩
  | cons x rest ih =>
    obtain ⟨ihTT, ihFT, ihFF⟩ := ih
    by_cases hx : x = ';'
    · subst hx
      refine ⟨by simpa [collapseSemicolonsAux] using ihTT, ?_, ?_⟩
      · simpa [collapseSemicolonsAux] using ihFT
      · simp only [collapseSemicolonsAux, if_true, reduceIte]
        simpa [collapseSemicolonsAux] using ihTT
    · refine ⟨?_, ?_, ?_⟩
      · simp only [collapseSemicolonsAux, hx, if_false]
        simpa [collapseSemicolonsAux, hx] using ihFF
      · simp only [collapseSemicolonsAux, hx, if_false]
        simpa [collapseSemicolonsAux, hx] using ihFF
      · simp only [collapseSemicolonsAux, hx, if_false]
        simpa [collapseSemicolonsAux, hx] using ihFF

/-- A character other than `'\r'` and `'\n'` survives `replaceCRLF`. -/
theorem mem_replaceCRLF_of_ne (c : Char) (hcr : c ≠ '\r') (hlf : c ≠ '\n') :
    ∀ l : List Char, c ∈ l → c ∈ replaceCRLF l := by
  intro l
  induction l using replaceCRLF.induct with
  | case1 => intro h; simp at h
  | case2 x => intro h; simpa [replaceCRLF] using h
  | case3 c1 c2 rest hguard ih =>
    intro h
    have hg : c1 = '\r' ∧ c2 = '\n' := by simpa using hguard
    simp only [replaceCRLF, hguard, if_true]
    rcases List.mem_cons.mp h with h1 | h2
    · exact absurd (h1.trans hg.1) hcr
    · rcases List.mem_cons.mp h2 with h3 | h4
      · exact absurd (h3.trans hg.2) hlf
      · exact List.mem_cons_of_mem ';' (ih h4)
  | case4 c1 c2 rest hguard ih =>
    intro h
    simp only [replaceCRLF]
    rw [if_neg (by simpa using hguard)]
    rcases List.mem_cons.mp h with h1 | h2
    · exact h1 ▸ List.mem_cons_self c1 _
    · exact List.mem_cons_of_mem c1 (ih h2)

/-- A character other than `'\n'` survives `replaceLF`. -/
theorem mem_replaceLF_of_ne (c : Char) (hlf : c ≠ '\n') :
    ∀ l : List Char, c ∈ l → c ∈ replaceLF l := by
  intro l
  induction l with
  | nil => intro h; simp at h
  | cons x rest ih =>
    intro h
    simp only [replaceLF]
    rcases List.mem_cons.mp h with h1 | h2
    · subst h1
      rw [if_neg hlf]
      exact List.mem_cons_self c _
    · exact List.mem_cons_of_mem _ (ih h2)

/-! ## Claim C8: preprocessor idempotence -/

/-- C8 (counterexample).  Idempotence fails: in the input `"#'\na#b"` the
quote inside the comment toggles the shared quote flag, so the `'#'` in
`a#b` is treated as quoted and survives the first pass; the second pass
sees it unquoted and strips it.  `preprocess` gives `"a#b"`, then `"a"`. -/
theorem c8_preprocess_counterexample :
    preprocess (preprocess "#'\na#b".toList) ≠ preprocess "#'\na#b".toList := by
  decide

/-- C8 (amended).  The preprocessor is idempotent on every input that
contains no `'#'` character (comment stripping can change the quote parity
seen by a later pass, which is the only source of non-idempotence). -/
theorem c8_preprocess_idempotent (x : List Char) (hx : '#' ∉ x) :
    preprocess (preprocess x) = preprocess x := by
  have hws_cr : rustIsWhitespace '\r' = true := by decide
  have hws_lf : rustIsWhitespace '\n' = true := by decide
  have hws_semi : rustIsWhitespace ';' = false := by decide
  -- names for the three stages of the first pass
  have hrc : remove_comments x = x := removeCommentsAux_of_no_hash x hx false
  set z := remove_empty_line x with hz
  set w := replace_line_with_semicolon z with hw
  set y := collapseSemicolons w with hy
  have hpre : preprocess x = y := by
    simp only [preprocess, hrc, ← hz, ← hw, ← hy]
  rw [hpre]
  -- (a) no '#' in y
  have hhash_z : '#' ∉ z := by
    intro hmem
    rcases mem_of_mem_remove_empty_line '#' x hmem with h1 | h1
    · exact absurd h1 (by decide)
    · exact hx h1
  have hhash_w : '#' ∉ w := by
    intro hmem
    rcases mem_of_mem_replaceLF '#' _ hmem with h1 | h1
    · exact absurd h1 (by decide)
    · rcases mem_of_mem_replaceCRLF '#' _ h1 with h2 | h2
      · exact absurd h2 (by decide)
      · exact hhash_z h2
  have hhash_y : '#' ∉ y := fun hmem =>
    hhash_w (mem_of_mem_collapseSemicolonsAux '#' w false hmem)
  -- (b) no '\n' in y
  have hlf_w : '\n' ∉ w := lf_not_mem_replaceLF _
  have hlf_y : '\n' ∉ y := fun hmem =>
    hlf_w (mem_of_mem_collapseSemicolonsAux '\n' w false hmem)
  -- (c) y is empty or has a non-empty trim
  have hside : y = [] ∨ rustTrim y ≠ [] := by
    by_cases hynil : y = []
    · exact Or.inl hynil
    · refine Or.inr ?_
      have hwne : w ≠ [] := fun hh => hynil (by simp [hy, hh, collapseSemicolons, collapseSemicolonsAux])
      have hzne : z ≠ [] := by
        intro hh
        exact hwne (by simp [hw, hh, replace_line_with_semicolon, replaceCRLF, replaceLF])
      -- a non-whitespace character of z
      obtain ⟨c0, hc0z, hc0ws⟩ :
          ∃ c0 ∈ z, ¬rustIsWhitespace c0 := by
        rcases hkept : (rustLines x).filter (fun line => !(rustTrim line).isEmpty) with
          _ | ⟨l0, rest⟩
        · exact absurd (by simp [hz, remove_empty_line, hkept, joinNL]) hzne
        · have hl0 : l0 ∈ (rustLines x).filter (fun line => !(rustTrim line).isEmpty) := by
            rw [hkept]; exact List.mem_cons_self l0 rest
          have hpred := List.of_mem_filter hl0
          have htrim : rustTrim l0 ≠ [] := by simpa [List.isEmpty_iff] using hpred
          obtain ⟨c0, hc0, hws⟩ := exists_nonws_of_rustTrim_ne_nil l0 htrim
          refine ⟨c0, ?_, hws⟩
          have : c0 ∈ joinNL ((rustLines x).filter fun line => !(rustTrim line).isEmpty) :=
            mem_joinNL_of_mem c0 _ l0 hl0 hc0
          simpa [hz, remove_empty_line] using this
      have hc0cr : c0 ≠ '\r' := fun hh => hc0ws (hh ▸ hws_cr)
      have hc0lf : c0 ≠ '\n' := fun hh => hc0ws (hh ▸ hws_lf)
      by_cases hc0semi : c0 = ';'
      · subst hc0semi
        have hsw : ';' ∈ w :=
          mem_replaceLF_of_ne ';' (by decide) _
            (mem_replaceCRLF_of_ne ';' (by decide) (by decide) _ hc0z)
        have hsy : ';' ∈ y := semi_mem_collapseSemicolonsAux w hsw
        exact rustTrim_ne_nil_of_exists_nonws y ';' hsy (by simp [hws_semi])
      · have hcw : c0 ∈ w :=
          mem_replaceLF_of_ne c0 hc0lf _
            (mem_replaceCRLF_of_ne c0 hc0cr hc0lf _ hc0z)
        have hcy : c0 ∈ y := mem_collapseSemicolonsAux_of_ne c0 hc0semi w false hcw
        exact rustTrim_ne_nil_of_exists_nonws y c0 hcy hc0ws
  -- the second pass is the identity on y
  show preprocess y = y
  unfold preprocess remove_comments
  rw [removeCommentsAux_of_no_hash y hhash_y false]
  rw [remove_empty_line_of_no_lf y hlf_y hside]
  unfold replace_line_with_semicolon
  rw [replaceCRLF_of_no_lf y hlf_y, replaceLF_of_no_lf y hlf_y]
  exact (collapseSemicolonsAux_idem w).2.2

/-- C8 (witness): idempotence applied to the `'#'`-free input
`"a;;b\n\nc"`. -/
theorem c8_preprocess_idempotent_witness :
    preprocess (preprocess "a;;b\n\nc".toList) = preprocess "a;;b\n\nc".toList :=
  c8_preprocess_idempotent "a;;b\n\nc".toList (by decide)

/-! ## Helper lemmas about the lexer -/

/-- A `get?` hit decomposes `drop` into a cons. -/
theorem drop_eq_cons_of_get? (l : List Char) (n : Nat) (c : Char)
    (h : l.get? n = some c) : l.drop n = c :: l.drop (n + 1) := by
  have hn : n < l.length := (List.get?_eq_some.mp h).1
  rw [List.drop_eq_getElem_cons hn]
  have hc : l[n] = c := by
    have hg := List.get?_eq_get hn
    rw [hg] at h
    simpa using h
  rw [hc]

/-- A digit is not Rust whitespace. -/
theorem not_ws_of_isDigit (c : Char) (h : c.isDigit = true) :
    rustIsWhitespace c = false := by
  cases hor : rustIsWhitespace c
  · rfl
  · exfalso
    simp only [rustIsWhitespace, Bool.or_eq_true, decide_eq_true_eq] at hor
    casesm* _ ∨ _ <;> subst_vars <;> exact absurd h (by decide)

/-- When the cursor sits on a non-whitespace character, the
whitespace-skipping step does nothing. -/
theorem skipWhitespace_of_not_ws (lx : Lexer) (c : Char)
    (hc : lx.current = some c) (hws : rustIsWhitespace c = false) :
    lx.skipWhitespace = lx := by
  unfold Lexer.skipWhitespace
  rw [drop_eq_cons_of_get? lx.source lx.index c hc]
  simp [List.takeWhile, hws]

/-- The maximal numeric run at the cursor (the span consumed by
`read_number_token`). -/
def numberRunOf (lx : Lexer) : List Char :=
  (lx.source.drop lx.index).takeWhile rustIsNumeric

/-- The maximal non-whitespace non-reserved run at the cursor (the span
the claim says a leading digit should consume). -/
def stringRunOf (lx : Lexer) : List Char :=
  (lx.source.drop lx.index).takeWhile fun ch =>
    !rustIsWhitespace ch && !RESERVED_CHARS.contains ch

/-! ## Claim C6: tokenization round-trip and EOF termination -/

/-- C6 (counterexample).  The round-trip as claimed fails at the one-word
program `"a"`: its token sequence is `[String "a", EOF]`, and re-emitting
each token via `Token::to_string` (`EOF` prints as the literal `"EOF"`)
and lexing again yields `[String "a", String "EOF", EOF]`. -/
theorem c6_roundtrip_counterexample :
    ¬ (∀ (s : List Char) (ts : List Token), tokenize s = Except.ok ts →
        tokenize (emitTokens ts) = Except.ok ts) := by
  intro h
  have h1 : tokenize "a".toList =
      Except.ok [Token.string "a".toList, Token.eof] := by decide
  have h2 := h "a".toList [Token.string "a".toList, Token.eof] h1
  exact absurd h2 (by decide)

/-- Every successful run of the tokenize loop ends with exactly one `EOF`,
in final position. -/
theorem tokenizeAux_eof (fuel : Nat) :
    ∀ (lx : Lexer) (ts : List Token), tokenizeAux fuel lx = Except.ok ts →
      ∃ ts', ts = ts' ++ [Token.eof] ∧ Token.eof ∉ ts' := by
  induction fuel with
  | zero => intro lx ts h; simp [tokenizeAux] at h
  | succ n ih =>
    intro lx ts h
    simp only [tokenizeAux] at h
    cases hn : lx.next with
    | error e => rw [hn] at h; cases h
    | ok r =>
      rw [hn] at h
      obtain ⟨t, lx'⟩ := r
      by_cases ht : t = Token.eof
      · subst ht
        simp at h
        exact ⟨[], by simp [← h], by simp⟩
      · simp only [ht, if_false] at h
        cases haux : tokenizeAux n lx' with
        | error e => rw [haux] at h; cases h
        | ok ts0 =>
          rw [haux] at h
          simp at h
          obtain ⟨ts'', hts, hmem⟩ := ih lx' ts0 haux
          refine ⟨t :: ts'', by simp [hts, ← h], ?_⟩
          simp only [List.mem_cons]
          rintro (hh | hh)
          · exact ht hh.symm
          · exact hmem hh

/-- C6 (amended).  Re-emission via `Token::to_string` is lossy (`Pipe`
prints as `"="`, identifiers lose `$`, file descriptors lose `@`, quoting
is lost, `EOF` prints as `"EOF"`), so the round-trip fails; what does hold
is the second half of the claim: every token sequence produced by
`tokenize` terminates with a final `EOF` token, and contains no other
`EOF`. -/
theorem c6_tokenize_eof_terminates (s : List Char) (ts : List Token)
    (h : tokenize s = Except.ok ts) :
    ∃ ts', ts = ts' ++ [Token.eof] ∧ Token.eof ∉ ts' :=
  tokenizeAux_eof (s.length + 1) (Lexer.new s) ts h

/-- C6 (witness): the EOF-termination theorem applied to the program
`"ls -a"`. -/
theorem c6_tokenize_eof_terminates_witness :
    ∃ ts', [Token.string "ls".toList, Token.string "-a".toList, Token.eof] =
      ts' ++ [Token.eof] ∧ Token.eof ∉ ts' :=
  c6_tokenize_eof_terminates "ls -a".toList _ (by decide)

/-! ## Claim C9: lexing at a leading digit -/

/-- The behaviour claimed for a lexer position whose next character is a
digit: consume the maximal run up to whitespace or a reserved symbol, emit
one `Number` token when that run parses as a signed integer, and emit that
same run as a single `String` token otherwise. -/
def c9ClaimStatement : Prop :=
  ∀ (lx : Lexer) (c : Char), lx.current = some c → c.isDigit = true →
    (∃ n, parseIsize (stringRunOf lx) = some n ∧
        lx.next = Except.ok (Token.number n,
          ⟨lx.source, lx.index + (stringRunOf lx).length⟩)) ∨
    (parseIsize (stringRunOf lx) = none ∧
        lx.next = Except.ok (Token.string (stringRunOf lx),
          ⟨lx.source, lx.index + (stringRunOf lx).length⟩))

/-- C9 (counterexample).  At the input `"12a"` the maximal
non-whitespace, non-reserved run is `"12a"`, which does not parse as an
integer, so the claim predicts the fallback `String("12a")`; the lexer
instead consumes only the digit run and returns `Number 12`, leaving
`"a"` to be lexed as a separate token. -/
theorem c9_number_counterexample : ¬c9ClaimStatement := by
  intro h
  rcases h (Lexer.new "12a".toList) '1' rfl (by decide) with ⟨n, hp, _⟩ | ⟨_, hn⟩
  · have hsome : (parseIsize (stringRunOf (Lexer.new "12a".toList))).isSome = true := by
      rw [hp]; rfl
    exact absurd hsome (by decide)
  · exact absurd hn (by decide)

/-- C9 (amended).  For ASCII program text, at a lexer position whose next
character is a digit, the lexer consumes exactly the maximal run of
numeric characters (stopping at the first non-digit, not at whitespace or
reserved symbols) and emits a single `Number` token when that digit run
parses as a signed 64-bit integer; when the run does not parse (overflow),
the lexer returns an error — there is no fallback string interpretation in
this lexer.  The `isAsciiSource` hypothesis scopes the statement to the
inputs on which the model's ASCII fragment of `char::is_numeric` is
exact: on non-ASCII text the source lexer's run extends over all
Unicode-numeric code points (e.g. on `"1٣"` it consumes both characters
and then fails the `isize` parse), a case outside this statement.
(The separate draft lexer in `crates/fsh-parser/src/lexer.rs` is the one
that consumes up to whitespace/reserved and falls back to a string, and it
parses the run as an *unsigned* integer.) -/
theorem c9_number_lexing (lx : Lexer) (c : Char)
    (_hascii : isAsciiSource lx.source) (hc : lx.current = some c)
    (hd : c.isDigit = true) :
    (∀ n, parseIsize (numberRunOf lx) = some n →
        lx.next = Except.ok (Token.number n,
          ⟨lx.source, lx.index + (numberRunOf lx).length⟩)) ∧
    (parseIsize (numberRunOf lx) = none →
        lx.next = Except.error (lexErr "invalid number literal")) := by
  have hws := not_ws_of_isDigit c hd
  have hskip : lx.skipWhitespace = lx := skipWhitespace_of_not_ws lx c hc hws
  have hne : ∀ x : Char, x.isDigit = false → c ≠ x := by
    intro x hx hcx
    rw [hcx] at hd
    rw [hd] at hx
    cases hx
  have hsemi := hne ';' (by decide)
  have hamp := hne '&' (by decide)
  have hpipe := hne '|' (by decide)
  have heq := hne '=' (by decide)
  have hlt := hne '<' (by decide)
  have hgt := hne '>' (by decide)
  have hdollar := hne '$' (by decide)
  have hat := hne '@' (by decide)
  have hsq := hne '\'' (by decide)
  have hdq := hne '"' (by decide)
  have hnext : lx.next = lx.read_number_token := by
    simp only [Lexer.next, hskip, hc]
    simp [hsemi, hamp, hpipe, heq, hlt, hgt, hdollar, hat, hsq, hdq, hd]
  constructor
  · intro n hp
    rw [hnext]
    unfold Lexer.read_number_token Lexer.read_while
    simp only [numberRunOf] at hp
    simp [numberRunOf, hp]
  · intro hp
    rw [hnext]
    unfold Lexer.read_number_token Lexer.read_while
    simp only [numberRunOf] at hp
    simp [numberRunOf, hp]

/-- C9 (witness): the amended lexing theorem applied at the ASCII input
`"42x"`, where the digit run `"42"` parses and `Number 42` is emitted
with the cursor on the `'x'`. -/
theorem c9_number_lexing_witness :
    (Lexer.new "42x".toList).next = Except.ok (Token.number 42,
      ⟨"42x".toList, (Lexer.new "42x".toList).index +
        (numberRunOf (Lexer.new "42x".toList)).length⟩) :=
  (c9_number_lexing (Lexer.new "42x".toList) '4' (by decide) rfl (by decide)).1
    42 (by decide)

/-! ## Claim C7: `parse_pipe` on groups containing a `Pipe` token -/

/-- The behaviour claimed for `parse_pipe` on every token group containing
a `Pipe`: total (never panics), and either a pipeline of at least two
parsed commands or a returned syntax error. -/
def c7ClaimStatement : Prop :=
  ∀ ts : List Token, Token.pipe ∈ ts →
    (∃ p, parse_pipe ts = Except.ok p ∧ 2 ≤ p.length) ∨
    (∃ e, parse_pipe ts = Except.error (PErr.err e))

/-- C7 (counterexample).  The group `[String "a", String "b", Pipe]`
contains a `Pipe` and has 3 tokens, so it passes the length guard; the
trailing `Pipe` makes `recursion_split` produce a single segment, and
`parse_pipe` returns a pipeline with exactly **one** command — neither a
syntax error nor a pipeline of at least two segments.  (Separately,
`[String "a", Pipe, Pipe, String "b"]` makes `parse_command` index an
empty segment, a panic.) -/
theorem c7_parse_pipe_counterexample : ¬c7ClaimStatement := by
  intro h
  have hval : parse_pipe [Token.string "a".toList, Token.string "b".toList, Token.pipe] =
      Except.ok [⟨Expression.string "a".toList, [Expression.string "b".toList], [],
        Expression.boolean false⟩] := by decide
  rcases h [Token.string "a".toList, Token.string "b".toList, Token.pipe]
      (by decide) with ⟨p, hp, hlen⟩ | ⟨e, he⟩
  · rw [hval] at hp
    injection hp with hp
    rw [← hp] at hlen
    exact absurd hlen (by decide)
  · rw [hval] at he
    cases he

/-- A successful `parse_pipe` loop produces one command per segment. -/
theorem parsePipeCommands_length (segs : List (List Token)) :
    ∀ p : List Cmd, parsePipeCommands segs = Except.ok p →
      p.length = segs.length := by
  induction segs with
  | nil =>
    intro p h
    simp only [parsePipeCommands] at h
    injection h with h
    simp [← h]
  | cons seg rest ih =>
    intro p h
    simp only [parsePipeCommands, bind, Except.bind] at h
    cases hc : parse_command seg with
    | error e => rw [hc] at h; cases h
    | ok c =>
      rw [hc] at h
      cases hr : parsePipeCommands rest with
      | error e => rw [hr] at h; cases h
      | ok cs =>
        rw [hr] at h
        injection h with h
        simp [← h, ih cs hr]

/-- `recursion_split` always produces at least one segment. -/
theorem recursionSplitAux_length_pos (place : Token) :
    ∀ (l acc : List Token), 1 ≤ (recursionSplitAux place l acc).length := by
  intro l
  induction l with
  | nil => intro acc; simp [recursionSplitAux]
  | cons t rest ih =>
    intro acc
    simp only [recursionSplitAux]
    split
    · split
      · simp
      · simp
    · exact ih (t :: acc)

/-- When `place` occurs strictly before the last position,
`recursion_split` produces at least two segments. -/
theorem recursionSplitAux_length_two (place : Token) :
    ∀ (l acc : List Token) (i : Nat), l.get? i = some place → i + 1 < l.length →
      2 ≤ (recursionSplitAux place l acc).length := by
  intro l
  induction l with
  | nil => intro acc i hi _; simp at hi
  | cons t rest ih =>
    intro acc i hi hlast
    cases i with
    | zero =>
      have ht : t = place := by simpa using hi
      have hrest : ¬rest.isEmpty := by
        have : 1 < (t :: rest).length := hlast
        cases rest with
        | nil => simp at this
        | cons _ _ => simp
      simp only [recursionSplitAux, ht, if_pos rfl, hrest, if_false]
      simpa using Nat.succ_le_succ (recursionSplitAux_length_pos place rest [])
    | succ j =>
      have hj : rest.get? j = some place := by simpa using hi
      have hjlast : j + 1 < rest.length := by simpa using hlast
      by_cases ht : t = place
      · have hrest : ¬rest.isEmpty := by
          cases rest with
          | nil => simp at hj
          | cons _ _ => simp
        simp only [recursionSplitAux, ht, if_pos rfl, hrest, if_false]
        simpa using Nat.succ_le_succ (recursionSplitAux_length_pos place rest [])
      · simp only [recursionSplitAux, ht, if_false]
        exact ih (t :: acc) j hj hjlast

/-- C7 (amended).  `parse_pipe` is *not* total: an empty segment (e.g. two
adjacent `Pipe` tokens) panics on `tokens[0]`, and a trailing `Pipe` is
silently dropped by `recursion_split`, which can produce a one-command
pipeline.  What does hold: whenever some `Pipe` occurs strictly before the
last token of the group, any successfully returned pipeline has at least
two commands (groups of fewer than 3 tokens are rejected). -/
theorem c7_parse_pipe_min_segments (ts : List Token) (i : Nat)
    (hi : ts.get? i = some Token.pipe) (hlast : i + 1 < ts.length)
    (p : List Cmd) (h : parse_pipe ts = Except.ok p) : 2 ≤ p.length := by
  unfold parse_pipe at h
  split at h
  · cases h
  · rw [parsePipeCommands_length _ p h]
    exact recursionSplitAux_length_two Token.pipe ts [] i hi hlast

/-- C7 (witness): the amended theorem applied to the group
`[String "a", Pipe, String "b"]`, whose parse is a two-command pipeline. -/
theorem c7_parse_pipe_min_segments_witness :
    2 ≤ ([⟨Expression.string "a".toList, [], [], Expression.boolean false⟩,
          ⟨Expression.string "b".toList, [], [], Expression.boolean false⟩] :
          List Cmd).length :=
  c7_parse_pipe_min_segments
    [Token.string "a".toList, Token.pipe, Token.string "b".toList] 1
    (by decide) (by decide) _ (by decide)

/-! ## Claim C2: reaping completeness of `ProcessHandler::wait` -/

/-- C2.  `wait` on a registry holding one foreground entry (pid 1, child
exiting with status 0): the status is collected and the handle is dropped
in place, but the entry is **not** removed — the vector still has length 1
and still contains a foreground entry, contradicting "after `wait()`
returns, the registry contains no foreground entries". -/
theorem c2_wait_keeps_foreground_entry :
    handlerWait ⟨fun _ => some 0, fun _ => some (some 0)⟩
        [⟨⟨1, false, 0⟩, false, false⟩] =
      ([(1, 0)], [⟨⟨1, false, 0⟩, false, true⟩]) ∧
    handlerLen (handlerWait ⟨fun _ => some 0, fun _ => some (some 0)⟩
        [⟨⟨1, false, 0⟩, false, false⟩]).2 = 1 ∧
    ∃ e ∈ (handlerWait ⟨fun _ => some 0, fun _ => some (some 0)⟩
        [⟨⟨1, false, 0⟩, false, false⟩]).2, e.is_background = false := by
  refine ⟨by decide, by decide, ⟨⟨⟨1, false, 0⟩, false, true⟩, by decide, rfl⟩⟩

/-! ## Claim C1: execution of a single Command statement -/

/-- The behaviour claimed for a single `Command` statement: after a
successful execution that registered a new process, the last-registered
entry has been awaited — its handle reaped (dropped). -/
def c1ClaimStatement : Prop :=
  ∀ (c : Cmd) (s : State) (sh : ShVars) (w : World),
    (execute (Statement.command c) s sh w).1 = Out.ok () →
    (execute (Statement.command c) s sh w).2.1.handler.length =
      s.handler.length + 1 →
    ((execute (Statement.command c) s sh w).2.1.handler.getLast?.map
      (·.dropped)) = some true

/-- A concrete world in which spawning succeeds (pid 7) and every
filesystem query fails or is false. -/
def spawnWorld : World :=
  ⟨"/", fun _ => none, fun _ => false, fun _ => false, fun _ => false,
    fun _ => [], true, 7, 0, ⟨fun _ => some 0, fun _ => some (some 0)⟩⟩

/-- C1 (counterexample).  Executing the single foreground command `x` from
the fresh state spawns and registers child 7 and returns `Ok` — and the
new entry is left pending (never awaited, handle not dropped): the
`Statement::Command` branch of `execute` in `src/src/execute.rs` performs
no wait at all.  (The fsh-engine draft instead calls
`handler.wait()`, which awaits *every* entry, not only the last.) -/
theorem c1_command_counterexample : ¬c1ClaimStatement := by
  intro h
  have := h ⟨Expression.string "x".toList, [], [], Expression.boolean false⟩
    State.new ShVars.new spawnWorld (by decide) (by decide)
  exact absurd this (by decide)

/-- `execute_builtin_command` never touches the shell state. -/
theorem execute_builtin_command_state (name : String) (args : List String)
    (s : State) (w : World) :
    (execute_builtin_command name args s w).2.1 = s := by
  unfold execute_builtin_command
  split
  · split <;> rfl
  · split
    · rfl
    · split <;> rfl

/-- `execute_process_command` either leaves the registry alone or appends
exactly one pending (un-dropped) entry; it reaps nothing. -/
theorem execute_process_command_handler (name : String) (args : List String)
    (rds : List Redirect) (bg : Bool) (s : State) (w : World) (is_last : Bool) :
    (execute_process_command name args rds bg s w is_last).2.1.handler =
      s.handler ∨
    ∃ ch : Child,
      (execute_process_command name args rds bg s w is_last).2.1.handler =
        s.handler ++ [⟨ch, bg, false⟩] := by
  unfold execute_process_command
  rcases hstep : pipeStdinStep s with ⟨out1, s1⟩
  have hs1 : s1.handler = s.handler := by
    unfold pipeStdinStep at hstep
    split at hstep
    · rcases hr : s.pipe.recv with ⟨r, p'⟩
      rw [hr] at hstep
      cases r with
      | ok a =>
        injection hstep with h1 h2
        rw [← h2]
      | error e =>
        injection hstep with h1 h2
        rw [← h2]
    · injection hstep with h1 h2
      rw [← h2]
  cases out1 with
  | ok a =>
    simp only
    repeat' split
    all_goals first
      | exact Or.inl hs1
      | exact Or.inr ⟨⟨w.spawnPid,
          decide (s1.pipe.state = PipeState.sendable) && !is_last, w.pipeFd⟩,
          by simp [handlerPush, hs1]⟩
  | err e => exact Or.inl hs1
  | exit code => exact Or.inl hs1
  | abort => exact Or.inl hs1
  | panic => exact Or.inl hs1

/-- C1 (amended).  A single `Command` statement is executed with
`is_last = true` and **no** process is awaited: whatever the outcome, the
registry after execution is the registry before, possibly extended with
one new pending (un-reaped) entry; no existing entry is touched and no
handle is dropped.  (The spec's await-the-last-entry step does not exist
in `src/src/execute.rs`; the fsh-engine draft instead waits on all
entries.) -/
theorem c1_single_command_no_wait (c : Cmd) (s : State) (sh : ShVars)
    (w : World) :
    (execute (Statement.command c) s sh w).2.1.handler = s.handler ∨
    ∃ ch bg, (execute (Statement.command c) s sh w).2.1.handler =
      s.handler ++ [⟨ch, bg, false⟩] := by
  show (execute_command c s sh w true).2.1.handler = s.handler ∨
    ∃ ch bg, (execute_command c s sh w true).2.1.handler =
      s.handler ++ [⟨ch, bg, false⟩]
  unfold execute_command
  cases hname : resolveCommandName c.name sh with
  | error e => exact Or.inl rfl
  | ok name =>
    cases hargs : resolveCommandArgs c.arguments sh w with
    | error e => exact Or.inl rfl
    | ok args =>
      simp only
      rcases hb : execute_builtin_command name args s w with ⟨outb, sb, wb⟩
      have hsb : sb = s := by
        have := execute_builtin_command_state name args s w
        rw [hb] at this
        exact this
      rw [hsb]
      cases outb with
      | ok _ => exact Or.inl rfl
      | exit code => exact Or.inl rfl
      | abort => exact Or.inl rfl
      | panic => exact Or.inl rfl
      | err e =>
        simp only
        rcases hp : execute_process_command name args c.redirects
            (match c.is_background with
              | Expression.boolean b => b
              | _ => false) s wb true with ⟨outp, sp, wp⟩
        have hph := execute_process_command_handler name args c.redirects
          (match c.is_background with
            | Expression.boolean b => b
            | _ => false) s wb true
        rw [hp] at hph
        cases outp with
        | err e' =>
          rcases hph with h1 | ⟨ch, h2⟩
          · exact Or.inl h1
          · exact Or.inr ⟨ch, _, h2⟩
        | ok _ =>
          rcases hph with h1 | ⟨ch, h2⟩
          · exact Or.inl h1
          · exact Or.inr ⟨ch, _, h2⟩
        | exit code =>
          rcases hph with h1 | ⟨ch, h2⟩
          · exact Or.inl h1
          · exact Or.inr ⟨ch, _, h2⟩
        | abort =>
          rcases hph with h1 | ⟨ch, h2⟩
          · exact Or.inl h1
          · exact Or.inr ⟨ch, _, h2⟩
        | panic =>
          rcases hph with h1 | ⟨ch, h2⟩
          · exact Or.inl h1
          · exact Or.inr ⟨ch, _, h2⟩

/-! ## Claim C4: the builtin `cd` -/

/-- A fresh shell state whose current directory is `/`. -/
def cdState : State := ⟨[], Pipe.new, "/"⟩

/-- A world with directories `/` and `/tmp`: canonicalization maps `/` to
itself and `/` joined with `tmp` to `/tmp`, both are directories, and
`set_current_dir("/tmp")` succeeds. -/
def cdWorld : World :=
  ⟨"/",
    (fun p => if p = "/" then some "/" else
      if p = "//tmp" then some "/tmp" else none),
    (fun p => p = "/" || p = "/tmp"),
    (fun _ => false),
    (fun p => p = "/tmp"),
    (fun _ => []), false, 0, 0, ⟨fun _ => none, fun _ => none⟩⟩

/-- C4.  Executing the statement `cd tmp` from current directory `/` in a
world where `/tmp` is an existing directory: the call succeeds and the OS
process working directory becomes `/tmp` — but the shell state's
current-directory field is still `/`.  `execute_builtin_command` passes
`state.current_dir()` to the `cd` of `src/src/builtin/common.rs` and
discards the resolved path it returns, so the state field is never
written (only the `src/src/builtin/mod.rs` draft, which is not the one
the executor's call signature matches, writes it).  The claim's "both …
are updated" fails. -/
theorem c4_cd_updates_os_cwd_only :
    (execute (Statement.command ⟨Expression.string "cd".toList,
        [Expression.string "tmp".toList], [], Expression.boolean false⟩)
      cdState ShVars.new cdWorld).1 = Out.ok () ∧
    (execute (Statement.command ⟨Expression.string "cd".toList,
        [Expression.string "tmp".toList], [], Expression.boolean false⟩)
      cdState ShVars.new cdWorld).2.1.current_dir = "/" ∧
    (execute (Statement.command ⟨Expression.string "cd".toList,
        [Expression.string "tmp".toList], [], Expression.boolean false⟩)
      cdState ShVars.new cdWorld).2.2.2.cwd = "/tmp" := by
  refine ⟨by decide, by decide, by decide⟩

/-- The `mod.rs` draft of `cd`, by contrast, does write the state's
current-directory field (before attempting the OS `chdir`). -/
theorem mod_cd_updates_state :
    (mod_cd "tmp" cdState cdWorld).2.1.current_dir = "/tmp" := by decide

end Fsh
